import Mathlib

/-!
Verification of the XACML request/response codec, PDP client helpers and XML
normalization utilities of this repository, against its design specification.

The JavaScript sources are shallowly embedded:
* `buildRequestXml` (AuthzForceClient, the XPath-based client) is modelled as a
  function from a structured request to a structured XACML `Request` document
  (`RequestDoc`), mirroring the object that the source hands to the XML
  serializer field by field.
* `parseDecisionResponse` (the XPath-based, namespace-agnostic variant) is
  modelled over an XML DOM tree (`XmlNode`), with the XPath queries
  `//*[local-name()=N]/text()`, `//*[local-name()=N]/@A` and
  `//*[local-name()=N]` modelled as document-order traversals by local name.
* `transformXacmlNamespace` and `formatXML` (scripts/build-xacml.js) are
  modelled over `List Char`, with JavaScript `String.replace` (global and
  first-occurrence, with empty or literal replacement), `indexOf`, `trim` and
  `repeat` modelled explicitly.
* `waitForCondition` (XacmlTestUtils) is modelled as a fuelled loop over an
  explicit clock (the successive values returned by `Date.now()`), producing
  the returned boolean together with the trace of predicate polls and sleeps.
-/

namespace Xacml

/-! ## Basic string utilities (JavaScript semantics) -/

/-- JavaScript `haystack.includes(needle)` on lists of characters. -/
def listIncludes (needle : List Char) : List Char → Bool
  | [] => needle.isEmpty
  | c :: t => needle.isPrefixOf (c :: t) || listIncludes needle t

/-- JavaScript `hay.includes(needle)` on strings. -/
def strIncludes (needle hay : String) : Bool :=
  listIncludes needle.data hay.data

lemma isPrefixOf_eq_true_iff {α : Type _} [BEq α] [LawfulBEq α]
    {l1 l2 : List α} : l1.isPrefixOf l2 = true ↔ l1 <+: l2 :=
  List.isPrefixOf_iff_prefix

lemma nil_is_pre {α : Type _} {l : List α} : ([] : List α) <+: l :=
  List.nil_prefix

/-! ## The request encoder (`AuthzForceClient.buildRequestXml`) -/

/-- A JavaScript attribute object: its entries in insertion order. -/
abbrev AttributeBag := List (String × String)

/-- The `XacmlRequest` argument of `buildRequestXml`: each field is `none`
when the corresponding property is absent (JS falsy guard). -/
structure XacmlRequest where
  subject : Option AttributeBag := none
  resource : Option AttributeBag := none
  resources : Option (List AttributeBag) := none
  action : Option AttributeBag := none
  environment : Option AttributeBag := none
deriving DecidableEq

/-- One `<Attribute>` element as built by `buildRequestXml`. -/
structure XacmlAttribute where
  attributeId : String
  includeInResult : String
  valueDataType : String
  value : String
deriving DecidableEq

/-- One `<Attributes Category=...>` wrapper element. -/
structure AttributesWrapper where
  category : String
  attrElems : List XacmlAttribute
deriving DecidableEq

/-- The whole `<Request>` document handed to the XML serializer. -/
structure RequestDoc where
  xmlns : String
  returnPolicyIdList : String
  combinedDecision : String
  attributes : List AttributesWrapper
deriving DecidableEq

def subjectUrn : String := "urn:oasis:names:tc:xacml:1.0:subject:"
def resourceUrn : String := "urn:oasis:names:tc:xacml:1.0:resource:"
def actionUrn : String := "urn:oasis:names:tc:xacml:1.0:action:"
def environmentUrn : String := "urn:oasis:names:tc:xacml:1.0:environment:"
def stringDataType : String := "http://www.w3.org/2001/XMLSchema#string"
def subjectCategory : String := "urn:oasis:names:tc:xacml:1.0:subject-category:access-subject"
def resourceCategory : String := "urn:oasis:names:tc:xacml:3.0:attribute-category:resource"
def actionCategory : String := "urn:oasis:names:tc:xacml:3.0:attribute-category:action"
def environmentCategory : String := "urn:oasis:names:tc:xacml:3.0:attribute-category:environment"

/-- One entry of `attributes.push({...})` in `buildRequestXml`. -/
def mkAttribute (urn k v : String) : XacmlAttribute :=
  ⟨urn ++ k, "false", stringDataType, v⟩

/-- The attributes contributed by one optional bag (`Object.entries(...).forEach`). -/
def bagAttributes (urn : String) : Option AttributeBag → List XacmlAttribute
  | none => []
  | some b => b.map (fun kv => mkAttribute urn kv.1 kv.2)

/-- The attributes contributed by the `resources` array (same resource URN). -/
def resourcesAttributes : Option (List AttributeBag) → List XacmlAttribute
  | none => []
  | some bs => bs.flatMap (fun b => b.map (fun kv => mkAttribute resourceUrn kv.1 kv.2))

/-- The flat `attributes` array of `buildRequestXml`, in push order:
subject bag, resource bag, resources array, action bag. -/
def allAttributes (r : XacmlRequest) : List XacmlAttribute :=
  bagAttributes subjectUrn r.subject ++ bagAttributes resourceUrn r.resource ++
    resourcesAttributes r.resources ++ bagAttributes actionUrn r.action

/-- Source `AuthzForceClient.buildRequestXml`: three category wrappers, each filtering
the flat attribute list by substring containment of the category word in the
`AttributeId`, empty wrappers dropped. -/
def buildRequestXml (r : XacmlRequest) : RequestDoc :=
  let attributes := allAttributes r
  { xmlns := "urn:oasis:names:tc:xacml:3.0:core:schema:wd-17"
    returnPolicyIdList := "false"
    combinedDecision := "false"
    attributes :=
      ([⟨subjectCategory, attributes.filter (fun a => strIncludes "subject" a.attributeId)⟩,
        ⟨resourceCategory, attributes.filter (fun a => strIncludes "resource" a.attributeId)⟩,
        ⟨actionCategory, attributes.filter (fun a => strIncludes "action" a.attributeId)⟩]).filter
        (fun c => !c.attrElems.isEmpty) }

/-! ## Helper lemmas about the encoder -/

/-- Every attribute of the flat attribute list is `mkAttribute urn k v` for one
of the three category URN constants of the source. -/
lemma mem_allAttributes {r : XacmlRequest} {a : XacmlAttribute}
    (ha : a ∈ allAttributes r) :
    ∃ urn k v, (urn = subjectUrn ∨ urn = resourceUrn ∨ urn = actionUrn) ∧
      a = mkAttribute urn k v := by
  simp only [allAttributes, List.mem_append] at ha
  rcases ha with ((h | h) | h) | h
  · cases hs : r.subject with
    | none => rw [hs] at h; simp [bagAttributes] at h
    | some b =>
      rw [hs] at h
      obtain ⟨kv, _, hkv⟩ := List.mem_map.mp h
      exact ⟨subjectUrn, kv.1, kv.2, Or.inl rfl, hkv.symm⟩
  · cases hs : r.resource with
    | none => rw [hs] at h; simp [bagAttributes] at h
    | some b =>
      rw [hs] at h
      obtain ⟨kv, _, hkv⟩ := List.mem_map.mp h
      exact ⟨resourceUrn, kv.1, kv.2, Or.inr (Or.inl rfl), hkv.symm⟩
  · cases hs : r.resources with
    | none => rw [hs] at h; simp [resourcesAttributes] at h
    | some bs =>
      rw [hs] at h
      simp only [resourcesAttributes, List.mem_flatMap, List.mem_map] at h
      obtain ⟨b, _, kv, _, hkv⟩ := h
      exact ⟨resourceUrn, kv.1, kv.2, Or.inr (Or.inl rfl), hkv.symm⟩
  · cases hs : r.action with
    | none => rw [hs] at h; simp [bagAttributes] at h
    | some b =>
      rw [hs] at h
      obtain ⟨kv, _, hkv⟩ := List.mem_map.mp h
      exact ⟨actionUrn, kv.1, kv.2, Or.inr (Or.inr rfl), hkv.symm⟩

/-- The environment attribute URN differs from each of the three emitted URNs
at character index 29, so it can never start a generated `AttributeId`. -/
lemma env_urn_not_pre (s k : String)
    (hs : s = subjectUrn ∨ s = resourceUrn ∨ s = actionUrn) :
    ¬ environmentUrn.data <+: (s ++ k).data := by
  rintro ⟨t, ht⟩
  have h1 : (environmentUrn.data ++ t)[29]? = some 'e' := by
    rw [List.getElem?_append_left (by decide)]
    decide
  rw [ht] at h1
  have hlt : 29 < s.data.length := by rcases hs with rfl | rfl | rfl <;> decide
  rw [String.data_append, List.getElem?_append_left hlt] at h1
  rcases hs with rfl | rfl | rfl <;> exact absurd h1 (by decide)

/-- A member of an emitted wrapper is a member of the flat attribute list. -/
lemma mem_wrapper_mem_all {r : XacmlRequest} {w : AttributesWrapper}
    {a : XacmlAttribute} (hw : w ∈ (buildRequestXml r).attributes)
    (ha : a ∈ w.attrElems) : a ∈ allAttributes r := by
  have hw' := (List.mem_filter.mp hw).1
  simp only [List.mem_cons, List.not_mem_nil, or_false] at hw'
  rcases hw' with rfl | rfl | rfl <;>
    exact (List.mem_filter.mp ha).1

/-- The category of an emitted wrapper is one of the three constants. -/
lemma category_of_wrapper {r : XacmlRequest} {w : AttributesWrapper}
    (hw : w ∈ (buildRequestXml r).attributes) :
    w.category = subjectCategory ∨ w.category = resourceCategory ∨
      w.category = actionCategory := by
  have hw' := (List.mem_filter.mp hw).1
  simp only [List.mem_cons, List.not_mem_nil, or_false] at hw'
  rcases hw' with rfl | rfl | rfl
  · exact Or.inl rfl
  · exact Or.inr (Or.inl rfl)
  · exact Or.inr (Or.inr rfl)

/-! ## Claims C5, C10, and the counterexamples of C2 and C3 -/

/-- The concrete query of claim C5: two resource bags in `resources`, one
action bag, everything else absent. -/
def q5 : XacmlRequest :=
  { resources := some [[("resource-id", "urn:klf:ds:person")],
                       [("resource-id", "urn:klf:ds:field:person.name")]],
    action := some [("action-id", "read")] }

/-- The same `resources` array together with a single `resource` bag, used to
exhibit the merge of both sources into one resource wrapper. -/
def q5merge : XacmlRequest :=
  { resource := some [("type", "document")],
    resources := some [[("resource-id", "urn:klf:ds:person")],
                       [("resource-id", "urn:klf:ds:field:person.name")]],
    action := some [("action-id", "read")] }

/-- Claim C5: encoding a query with
`resources=[{resource-id:urn:klf:ds:person},{resource-id:urn:klf:ds:field:person.name}]`
and `action={action-id:read}` produces a single resource-category
`<Attributes>` block containing exactly two `<Attribute>` elements, both with
`AttributeId` `urn:oasis:names:tc:xacml:1.0:resource:resource-id` and with the
two distinct `AttributeValue` texts; furthermore attributes of the `resources`
array are merged into the same resource wrapper as those of a single
`resource` bag (exhibited on `q5merge`). -/
theorem C5_multi_resource_encoding :
    (buildRequestXml q5).attributes =
      [⟨resourceCategory,
        [⟨resourceUrn ++ "resource-id", "false", stringDataType, "urn:klf:ds:person"⟩,
         ⟨resourceUrn ++ "resource-id", "false", stringDataType,
          "urn:klf:ds:field:person.name"⟩]⟩,
       ⟨actionCategory, [⟨actionUrn ++ "action-id", "false", stringDataType, "read"⟩]⟩] ∧
    ("urn:klf:ds:person" : String) ≠ "urn:klf:ds:field:person.name" ∧
    (buildRequestXml q5merge).attributes =
      [⟨resourceCategory,
        [⟨resourceUrn ++ "type", "false", stringDataType, "document"⟩,
         ⟨resourceUrn ++ "resource-id", "false", stringDataType, "urn:klf:ds:person"⟩,
         ⟨resourceUrn ++ "resource-id", "false", stringDataType,
          "urn:klf:ds:field:person.name"⟩]⟩,
       ⟨actionCategory, [⟨actionUrn ++ "action-id", "false", stringDataType, "read"⟩]⟩] := by
  refine ⟨by decide, by decide, by decide⟩

/-- Claim C10 (implicit): the encoder never reads the environment bag: no
emitted wrapper carries the environment category, no emitted attribute has an
environment-prefixed `AttributeId`, and the encoding is unchanged when the
environment bag is erased (hence also when it is non-empty). -/
theorem C10_environment_ignored (r : XacmlRequest) :
    (∀ w ∈ (buildRequestXml r).attributes, w.category ≠ environmentCategory) ∧
    (∀ w ∈ (buildRequestXml r).attributes, ∀ a ∈ w.attrElems,
      ¬ environmentUrn.data <+: a.attributeId.data) ∧
    buildRequestXml r = buildRequestXml { r with environment := none } := by
  refine ⟨?_, ?_, rfl⟩
  · intro w hw
    rcases category_of_wrapper hw with h | h | h <;> rw [h] <;> decide
  · intro w hw a ha
    obtain ⟨urn, k, v, hurn, rfl⟩ := mem_allAttributes (mem_wrapper_mem_all hw ha)
    exact env_urn_not_pre urn k hurn

/-- The counterexample query of claim C2: a subject-bag key that contains the
word `resource`. -/
def q2cex : XacmlRequest := { subject := some [("resource-owner", "alice")] }

/-- The single attribute generated from `q2cex`. -/
def a2cex : XacmlAttribute := mkAttribute subjectUrn "resource-owner" "alice"

/-- Counterexample to claim C2: for the caller-defined subject key
`resource-owner`, the generated attribute (whose `AttributeId`
`urn:oasis:names:tc:xacml:1.0:subject:resource-owner` contains both the words
`subject` and `resource`) is placed in TWO wrappers — the subject-category one
and the resource-category one — although it comes from the subject bag only,
refuting "each `<Attribute>` element is placed in exactly one `<Attributes>`
wrapper". -/
theorem C2_cex_subject_attr_in_two_wrappers :
    (buildRequestXml q2cex).attributes.countP
        (fun w => decide (a2cex ∈ w.attrElems)) = 2 ∧
    (buildRequestXml q2cex).attributes.map (fun w => w.category) =
      [subjectCategory, resourceCategory] := by
  exact ⟨by decide, by decide⟩

/-- The counterexample query of claim C3: only the environment bag is
non-empty. -/
def q3cex : XacmlRequest :=
  { environment := some [("currentTime", "2024-01-01T00:00:00Z")] }

/-- Counterexample to claim C3: `q3cex` has a non-empty bag (environment), yet
the encoded document contains no `<Attributes>` element at all — in
particular none for the environment category although that category has an
attribute — refuting "exactly one `<Attributes>` element for each category
that has at least one attribute". -/
theorem C3_cex_environment_category_dropped :
    (buildRequestXml q3cex).attributes = [] ∧
    q3cex.environment = some [("currentTime", "2024-01-01T00:00:00Z")] :=
  ⟨rfl, rfl⟩

/-! ## Substring occurrence lemmas -/

/-- The function `listIncludes` computes list containment (`IsInfix`). -/
lemma listIncludes_iff (n : List Char) (h : List Char) :
    listIncludes n h = true ↔ n <:+: h := by
  induction h with
  | nil => simp [listIncludes, List.isEmpty_iff]
  | cons c t ih =>
    simp only [listIncludes, Bool.or_eq_true, isPrefixOf_eq_true_iff, ih,
      List.infix_cons_iff]

/-- A prefix of a concatenation is a prefix of the left part or extends it. -/
lemma pre_append_split {α : Type _} {t a b : List α} (h : t <+: a ++ b) :
    t <+: a ∨ (a <+: t ∧ t.drop a.length <+: b) := by
  by_cases hl : t.length ≤ a.length
  · exact Or.inl (List.prefix_of_prefix_length_le h (List.prefix_append a b) hl)
  · have ha : a <+: t :=
      List.prefix_of_prefix_length_le (List.prefix_append a b) h (le_of_not_le hl)
    obtain ⟨w, rfl⟩ := ha
    refine Or.inr ⟨⟨w, rfl⟩, ?_⟩
    obtain ⟨u, hu⟩ := h
    rw [List.append_assoc] at hu
    rw [List.drop_left]
    exact ⟨u, List.append_cancel_left hu⟩

/-- Occurrence decomposition: an occurrence in `a ++ b` lies in `a`, lies in
`b`, or straddles the seam (a nonempty proper front of it ends `a` and the
rest starts `b`). -/
lemma infix_append_split {α : Type _} {n a b : List α} (h : n <:+: a ++ b) :
    n <:+: a ∨ n <:+: b ∨
      ∃ j, 0 < j ∧ j < n.length ∧ n.take j <:+ a ∧ n.drop j <+: b := by
  induction a with
  | nil => exact Or.inr (Or.inl h)
  | cons c a' ih =>
    rw [List.cons_append, List.infix_cons_iff] at h
    rcases h with h | h
    · rcases List.prefix_cons_iff.mp h with rfl | ⟨t, rfl, ht⟩
      · exact Or.inl List.nil_infix
      · rcases pre_append_split ht with ht' | ⟨hat, hdrop⟩
        · exact Or.inl (List.cons_prefix_cons.mpr ⟨rfl, ht'⟩).isInfix
        · by_cases hj : (c :: a').length < (c :: t).length
          · refine Or.inr (Or.inr ⟨(c :: a').length, by simp, hj, ?_, ?_⟩)
            · have hta : (c :: t).take (c :: a').length = c :: a' := by
                simp only [List.length_cons, List.take_succ_cons]
                obtain ⟨w, rfl⟩ := hat
                rw [List.take_left]
              rw [hta]
            · simpa [List.length_cons] using hdrop
          · push_neg at hj
            have hlen : a'.length = t.length := by
              have h1 := hat.length_le
              simp only [List.length_cons] at hj
              omega
            have : a' = t := hat.eq_of_length hlen
            subst this
            exact Or.inl List.infix_rfl
    · rcases ih h with h' | h' | ⟨j, hj0, hjn, hta, htb⟩
      · exact Or.inl (List.infix_cons h')
      · exact Or.inr (Or.inl h')
      · exact Or.inr (Or.inr ⟨j, hj0, hjn, hta.trans (List.suffix_cons c a'), htb⟩)

/-- Sufficient condition for non-occurrence in a concatenation. -/
lemma not_infix_append {α : Type _} {n a b : List α} (hna : ¬ n <:+: a)
    (hnb : ¬ n <:+: b)
    (hseam : ∀ j, j < n.length → 0 < j → ¬ n.take j <:+ a) :
    ¬ n <:+: a ++ b := by
  intro h
  rcases infix_append_split h with h' | h' | ⟨j, h1, h2, h3, _⟩
  · exact hna h'
  · exact hnb h'
  · exact hseam j h2 h1 h3

lemma strIncludes_true {n h : String} (hn : n.data <:+: h.data) :
    strIncludes n h = true :=
  (listIncludes_iff n.data h.data).mpr hn

lemma strIncludes_false {n h : String} (hn : ¬ (n.data <:+: h.data)) :
    strIncludes n h = false := by
  cases hb : strIncludes n h
  · rfl
  · exact absurd ((listIncludes_iff n.data h.data).mp hb) hn

lemma strIncludes_append_true (n s k : String) (h : n.data <:+: s.data) :
    strIncludes n (s ++ k) = true := by
  apply strIncludes_true
  rw [String.data_append]
  exact h.trans (List.prefix_append s.data k.data).isInfix

lemma strIncludes_append_false (n s k : String)
    (h1 : ¬ (n.data <:+: s.data))
    (h2 : ∀ j, j < n.data.length → 0 < j → ¬ n.data.take j <:+ s.data)
    (h3 : ¬ (n.data <:+: k.data)) :
    strIncludes n (s ++ k) = false := by
  apply strIncludes_false
  rw [String.data_append]
  exact not_infix_append h1 h3 h2

/-- Two concatenations differing at a character index inside both left parts
are different strings. -/
lemma str_append_ne {s1 s2 : String} (k1 k2 : String) (j : Nat)
    (hj1 : j < s1.data.length) (hj2 : j < s2.data.length)
    (hne : s1.data[j]? ≠ s2.data[j]?) : s1 ++ k1 ≠ s2 ++ k2 := by
  intro h
  have hd : (s1 ++ k1).data = (s2 ++ k2).data := by rw [h]
  rw [String.data_append, String.data_append] at hd
  have hj := congrArg (fun l => l[j]?) hd
  simp only at hj
  rw [List.getElem?_append_left hj1, List.getElem?_append_left hj2] at hj
  exact hne hj

/-! ## Clean requests: keys that do not collide with another category word -/

/-- A request is clean when no bag key contains the name of another category
as a substring (the latent hazard of the `includes`-based grouping). -/
def cleanRequest (r : XacmlRequest) : Prop :=
  (∀ kv ∈ r.subject.getD [],
    ¬ ("resource".data <:+: kv.1.data) ∧ ¬ ("action".data <:+: kv.1.data)) ∧
  (∀ kv ∈ r.resource.getD [],
    ¬ ("subject".data <:+: kv.1.data) ∧ ¬ ("action".data <:+: kv.1.data)) ∧
  (∀ b ∈ r.resources.getD [], ∀ kv ∈ b,
    ¬ ("subject".data <:+: kv.1.data) ∧ ¬ ("action".data <:+: kv.1.data)) ∧
  (∀ kv ∈ r.action.getD [],
    ¬ ("subject".data <:+: kv.1.data) ∧ ¬ ("resource".data <:+: kv.1.data))

instance (r : XacmlRequest) : Decidable (cleanRequest r) := by
  unfold cleanRequest
  infer_instance

lemma mem_bagAttributes {urn : String} {ob : Option AttributeBag}
    {a : XacmlAttribute} (h : a ∈ bagAttributes urn ob) :
    ∃ kv, kv ∈ ob.getD [] ∧ a = mkAttribute urn kv.1 kv.2 := by
  cases ob with
  | none => simp [bagAttributes] at h
  | some b =>
    obtain ⟨kv, hkv, rfl⟩ := List.mem_map.mp h
    exact ⟨kv, hkv, rfl⟩

lemma mem_resourcesAttributes {obs : Option (List AttributeBag)}
    {a : XacmlAttribute} (h : a ∈ resourcesAttributes obs) :
    ∃ b kv, b ∈ obs.getD [] ∧ kv ∈ b ∧ a = mkAttribute resourceUrn kv.1 kv.2 := by
  cases obs with
  | none => simp [resourcesAttributes] at h
  | some bs =>
    simp only [resourcesAttributes, List.mem_flatMap, List.mem_map] at h
    obtain ⟨b, hb, kv, hkv, rfl⟩ := h
    exact ⟨b, kv, hb, hkv, rfl⟩

lemma subj_attr_ne_res (k1 v1 k2 v2 : String) :
    mkAttribute subjectUrn k1 v1 ≠ mkAttribute resourceUrn k2 v2 := by
  intro h
  exact str_append_ne k1 k2 29 (by decide) (by decide) (by decide)
    (congrArg XacmlAttribute.attributeId h)

lemma subj_attr_ne_act (k1 v1 k2 v2 : String) :
    mkAttribute subjectUrn k1 v1 ≠ mkAttribute actionUrn k2 v2 := by
  intro h
  exact str_append_ne k1 k2 29 (by decide) (by decide) (by decide)
    (congrArg XacmlAttribute.attributeId h)

lemma res_attr_ne_act (k1 v1 k2 v2 : String) :
    mkAttribute resourceUrn k1 v1 ≠ mkAttribute actionUrn k2 v2 := by
  intro h
  exact str_append_ne k1 k2 29 (by decide) (by decide) (by decide)
    (congrArg XacmlAttribute.attributeId h)

/-- On a clean request, the three `includes`-based filters of
`buildRequestXml` recover exactly the per-category attribute lists. -/
lemma encode_clean_filters (r : XacmlRequest) (hc : cleanRequest r) :
    (allAttributes r).filter (fun a => strIncludes "subject" a.attributeId) =
      bagAttributes subjectUrn r.subject ∧
    (allAttributes r).filter (fun a => strIncludes "resource" a.attributeId) =
      bagAttributes resourceUrn r.resource ++ resourcesAttributes r.resources ∧
    (allAttributes r).filter (fun a => strIncludes "action" a.attributeId) =
      bagAttributes actionUrn r.action := by
  obtain ⟨hcs, hcr, hcrs, hca⟩ := hc
  unfold allAttributes
  repeat rw [List.filter_append]
  refine ⟨?_, ?_, ?_⟩
  · have e1 : (bagAttributes subjectUrn r.subject).filter
        (fun a => strIncludes "subject" a.attributeId) =
        bagAttributes subjectUrn r.subject := by
      refine List.filter_eq_self.mpr (fun a ha => ?_)
      obtain ⟨kv, hkv, rfl⟩ := mem_bagAttributes ha
      exact strIncludes_append_true _ _ _ (by decide)
    have e2 : (bagAttributes resourceUrn r.resource).filter
        (fun a => strIncludes "subject" a.attributeId) = [] := by
      refine List.filter_eq_nil_iff.mpr (fun a ha => ?_)
      obtain ⟨kv, hkv, rfl⟩ := mem_bagAttributes ha
      simp [mkAttribute, strIncludes_append_false "subject" resourceUrn kv.1
        (by decide) (by decide) (hcr kv hkv).1]
    have e3 : (resourcesAttributes r.resources).filter
        (fun a => strIncludes "subject" a.attributeId) = [] := by
      refine List.filter_eq_nil_iff.mpr (fun a ha => ?_)
      obtain ⟨b, kv, hb, hkv, rfl⟩ := mem_resourcesAttributes ha
      simp [mkAttribute, strIncludes_append_false "subject" resourceUrn kv.1
        (by decide) (by decide) (hcrs b hb kv hkv).1]
    have e4 : (bagAttributes actionUrn r.action).filter
        (fun a => strIncludes "subject" a.attributeId) = [] := by
      refine List.filter_eq_nil_iff.mpr (fun a ha => ?_)
      obtain ⟨kv, hkv, rfl⟩ := mem_bagAttributes ha
      simp [mkAttribute, strIncludes_append_false "subject" actionUrn kv.1
        (by decide) (by decide) (hca kv hkv).1]
    rw [e1, e2, e3, e4]
    simp
  · have e1 : (bagAttributes subjectUrn r.subject).filter
        (fun a => strIncludes "resource" a.attributeId) = [] := by
      refine List.filter_eq_nil_iff.mpr (fun a ha => ?_)
      obtain ⟨kv, hkv, rfl⟩ := mem_bagAttributes ha
      simp [mkAttribute, strIncludes_append_false "resource" subjectUrn kv.1
        (by decide) (by decide) (hcs kv hkv).1]
    have e2 : (bagAttributes resourceUrn r.resource).filter
        (fun a => strIncludes "resource" a.attributeId) =
        bagAttributes resourceUrn r.resource := by
      refine List.filter_eq_self.mpr (fun a ha => ?_)
      obtain ⟨kv, hkv, rfl⟩ := mem_bagAttributes ha
      exact strIncludes_append_true _ _ _ (by decide)
    have e3 : (resourcesAttributes r.resources).filter
        (fun a => strIncludes "resource" a.attributeId) =
        resourcesAttributes r.resources := by
      refine List.filter_eq_self.mpr (fun a ha => ?_)
      obtain ⟨b, kv, hb, hkv, rfl⟩ := mem_resourcesAttributes ha
      exact strIncludes_append_true _ _ _ (by decide)
    have e4 : (bagAttributes actionUrn r.action).filter
        (fun a => strIncludes "resource" a.attributeId) = [] := by
      refine List.filter_eq_nil_iff.mpr (fun a ha => ?_)
      obtain ⟨kv, hkv, rfl⟩ := mem_bagAttributes ha
      simp [mkAttribute, strIncludes_append_false "resource" actionUrn kv.1
        (by decide) (by decide) (hca kv hkv).2]
    rw [e1, e2, e3, e4]
    simp
  · have e1 : (bagAttributes subjectUrn r.subject).filter
        (fun a => strIncludes "action" a.attributeId) = [] := by
      refine List.filter_eq_nil_iff.mpr (fun a ha => ?_)
      obtain ⟨kv, hkv, rfl⟩ := mem_bagAttributes ha
      simp [mkAttribute, strIncludes_append_false "action" subjectUrn kv.1
        (by decide) (by decide) (hcs kv hkv).2]
    have e2 : (bagAttributes resourceUrn r.resource).filter
        (fun a => strIncludes "action" a.attributeId) = [] := by
      refine List.filter_eq_nil_iff.mpr (fun a ha => ?_)
      obtain ⟨kv, hkv, rfl⟩ := mem_bagAttributes ha
      simp [mkAttribute, strIncludes_append_false "action" resourceUrn kv.1
        (by decide) (by decide) (hcr kv hkv).2]
    have e3 : (resourcesAttributes r.resources).filter
        (fun a => strIncludes "action" a.attributeId) = [] := by
      refine List.filter_eq_nil_iff.mpr (fun a ha => ?_)
      obtain ⟨b, kv, hb, hkv, rfl⟩ := mem_resourcesAttributes ha
      simp [mkAttribute, strIncludes_append_false "action" resourceUrn kv.1
        (by decide) (by decide) (hcrs b hb kv hkv).2]
    have e4 : (bagAttributes actionUrn r.action).filter
        (fun a => strIncludes "action" a.attributeId) =
        bagAttributes actionUrn r.action := by
      refine List.filter_eq_self.mpr (fun a ha => ?_)
      obtain ⟨kv, hkv, rfl⟩ := mem_bagAttributes ha
      exact strIncludes_append_true _ _ _ (by decide)
    rw [e1, e2, e3, e4]
    simp

/-- On a clean request the encoded wrapper list is the exact per-category
partition (with empty categories dropped). -/
lemma encode_clean (r : XacmlRequest) (hc : cleanRequest r) :
    (buildRequestXml r).attributes =
      ([⟨subjectCategory, bagAttributes subjectUrn r.subject⟩,
        ⟨resourceCategory,
          bagAttributes resourceUrn r.resource ++ resourcesAttributes r.resources⟩,
        ⟨actionCategory, bagAttributes actionUrn r.action⟩] :
          List AttributesWrapper).filter (fun c => !c.attrElems.isEmpty) := by
  obtain ⟨h1, h2, h3⟩ := encode_clean_filters r hc
  show (([⟨subjectCategory, (allAttributes r).filter
          (fun a => strIncludes "subject" a.attributeId)⟩,
        ⟨resourceCategory, (allAttributes r).filter
          (fun a => strIncludes "resource" a.attributeId)⟩,
        ⟨actionCategory, (allAttributes r).filter
          (fun a => strIncludes "action" a.attributeId)⟩] :
          List AttributesWrapper).filter (fun c => !c.attrElems.isEmpty)) = _
  rw [h1, h2, h3]

lemma countP3_first {a : XacmlAttribute} {sA rA aA : List XacmlAttribute}
    (hs : a ∈ sA) (hr : a ∉ rA) (hA : a ∉ aA) :
    (([⟨subjectCategory, sA⟩, ⟨resourceCategory, rA⟩,
       ⟨actionCategory, aA⟩] : List AttributesWrapper).filter
        (fun c => !c.attrElems.isEmpty)).countP
      (fun w => decide (a ∈ w.attrElems)) = 1 := by
  have hne : sA.isEmpty = false := by
    cases sA with
    | nil => exact absurd hs (List.not_mem_nil a)
    | cons x xs => rfl
  rw [List.countP_filter]
  simp [List.countP_cons, hs, hr, hA, hne]

lemma countP3_middle {a : XacmlAttribute} {sA rA aA : List XacmlAttribute}
    (hs : a ∉ sA) (hr : a ∈ rA) (hA : a ∉ aA) :
    (([⟨subjectCategory, sA⟩, ⟨resourceCategory, rA⟩,
       ⟨actionCategory, aA⟩] : List AttributesWrapper).filter
        (fun c => !c.attrElems.isEmpty)).countP
      (fun w => decide (a ∈ w.attrElems)) = 1 := by
  have hne : rA.isEmpty = false := by
    cases rA with
    | nil => exact absurd hr (List.not_mem_nil a)
    | cons x xs => rfl
  rw [List.countP_filter]
  simp [List.countP_cons, hs, hr, hA, hne]

lemma countP3_last {a : XacmlAttribute} {sA rA aA : List XacmlAttribute}
    (hs : a ∉ sA) (hr : a ∉ rA) (hA : a ∈ aA) :
    (([⟨subjectCategory, sA⟩, ⟨resourceCategory, rA⟩,
       ⟨actionCategory, aA⟩] : List AttributesWrapper).filter
        (fun c => !c.attrElems.isEmpty)).countP
      (fun w => decide (a ∈ w.attrElems)) = 1 := by
  have hne : aA.isEmpty = false := by
    cases aA with
    | nil => exact absurd hA (List.not_mem_nil a)
    | cons x xs => rfl
  rw [List.countP_filter]
  simp [List.countP_cons, hs, hr, hA, hne]

/-- Claim C2 (amended): for requests whose bag keys do not contain another
category word as a substring, every emitted `<Attribute>` element is placed in
exactly one `<Attributes>` wrapper, namely the one of the category of the bag
it came from (subject-bag attributes under the subject category, resource-bag
and resources-array attributes under the resource category, action-bag
attributes under the action category); on arbitrary keys the substring-based
grouping can duplicate an attribute into a foreign wrapper (see the
counterexample). -/
theorem C2_amended_attribute_scoping (r : XacmlRequest) (hc : cleanRequest r) :
    ((buildRequestXml r).attributes =
      ([⟨subjectCategory, bagAttributes subjectUrn r.subject⟩,
        ⟨resourceCategory,
          bagAttributes resourceUrn r.resource ++ resourcesAttributes r.resources⟩,
        ⟨actionCategory, bagAttributes actionUrn r.action⟩] :
          List AttributesWrapper).filter (fun c => !c.attrElems.isEmpty)) ∧
    (∀ a ∈ bagAttributes subjectUrn r.subject,
      (buildRequestXml r).attributes.countP
          (fun w => decide (a ∈ w.attrElems)) = 1 ∧
      ∀ w ∈ (buildRequestXml r).attributes, a ∈ w.attrElems →
        w.category = subjectCategory) ∧
    (∀ a ∈ bagAttributes resourceUrn r.resource ++ resourcesAttributes r.resources,
      (buildRequestXml r).attributes.countP
          (fun w => decide (a ∈ w.attrElems)) = 1 ∧
      ∀ w ∈ (buildRequestXml r).attributes, a ∈ w.attrElems →
        w.category = resourceCategory) ∧
    (∀ a ∈ bagAttributes actionUrn r.action,
      (buildRequestXml r).attributes.countP
          (fun w => decide (a ∈ w.attrElems)) = 1 ∧
      ∀ w ∈ (buildRequestXml r).attributes, a ∈ w.attrElems →
        w.category = actionCategory) := by
  have hE := encode_clean r hc
  refine ⟨hE, fun a ha => ?_, fun a ha => ?_, fun a ha => ?_⟩
  · obtain ⟨kv, hkv, rfl⟩ := mem_bagAttributes ha
    have hr : mkAttribute subjectUrn kv.1 kv.2 ∉
        bagAttributes resourceUrn r.resource ++ resourcesAttributes r.resources := by
      intro h
      rcases List.mem_append.mp h with h | h
      · obtain ⟨kv2, _, he⟩ := mem_bagAttributes h
        exact subj_attr_ne_res kv.1 kv.2 kv2.1 kv2.2 he
      · obtain ⟨b, kv2, _, _, he⟩ := mem_resourcesAttributes h
        exact subj_attr_ne_res kv.1 kv.2 kv2.1 kv2.2 he
    have hA : mkAttribute subjectUrn kv.1 kv.2 ∉ bagAttributes actionUrn r.action := by
      intro h
      obtain ⟨kv2, _, he⟩ := mem_bagAttributes h
      exact subj_attr_ne_act kv.1 kv.2 kv2.1 kv2.2 he
    refine ⟨hE ▸ countP3_first ha hr hA, fun w hw hmem => ?_⟩
    rw [hE] at hw
    have hw' := (List.mem_filter.mp hw).1
    simp only [List.mem_cons, List.not_mem_nil, or_false] at hw'
    rcases hw' with rfl | rfl | rfl
    · rfl
    · exact absurd hmem hr
    · exact absurd hmem hA
  · have hres : ∃ kv : String × String, a = mkAttribute resourceUrn kv.1 kv.2 := by
      rcases List.mem_append.mp ha with h | h
      · obtain ⟨kv2, _, he⟩ := mem_bagAttributes h
        exact ⟨kv2, he⟩
      · obtain ⟨b, kv2, _, _, he⟩ := mem_resourcesAttributes h
        exact ⟨kv2, he⟩
    obtain ⟨kv, rfl⟩ := hres
    have hs : mkAttribute resourceUrn kv.1 kv.2 ∉
        bagAttributes subjectUrn r.subject := by
      intro h
      obtain ⟨kv2, _, he⟩ := mem_bagAttributes h
      exact subj_attr_ne_res kv2.1 kv2.2 kv.1 kv.2 he.symm
    have hA : mkAttribute resourceUrn kv.1 kv.2 ∉
        bagAttributes actionUrn r.action := by
      intro h
      obtain ⟨kv2, _, he⟩ := mem_bagAttributes h
      exact res_attr_ne_act kv.1 kv.2 kv2.1 kv2.2 he
    refine ⟨hE ▸ countP3_middle hs ha hA, fun w hw hmem => ?_⟩
    rw [hE] at hw
    have hw' := (List.mem_filter.mp hw).1
    simp only [List.mem_cons, List.not_mem_nil, or_false] at hw'
    rcases hw' with rfl | rfl | rfl
    · exact absurd hmem hs
    · rfl
    · exact absurd hmem hA
  · obtain ⟨kv, hkv, rfl⟩ := mem_bagAttributes ha
    have hs : mkAttribute actionUrn kv.1 kv.2 ∉
        bagAttributes subjectUrn r.subject := by
      intro h
      obtain ⟨kv2, _, he⟩ := mem_bagAttributes h
      exact subj_attr_ne_act kv2.1 kv2.2 kv.1 kv.2 he.symm
    have hr : mkAttribute actionUrn kv.1 kv.2 ∉
        bagAttributes resourceUrn r.resource ++ resourcesAttributes r.resources := by
      intro h
      rcases List.mem_append.mp h with h | h
      · obtain ⟨kv2, _, he⟩ := mem_bagAttributes h
        exact res_attr_ne_act kv2.1 kv2.2 kv.1 kv.2 he.symm
      · obtain ⟨b, kv2, _, _, he⟩ := mem_resourcesAttributes h
        exact res_attr_ne_act kv2.1 kv2.2 kv.1 kv.2 he.symm
    refine ⟨hE ▸ countP3_last hs hr ha, fun w hw hmem => ?_⟩
    rw [hE] at hw
    have hw' := (List.mem_filter.mp hw).1
    simp only [List.mem_cons, List.not_mem_nil, or_false] at hw'
    rcases hw' with rfl | rfl | rfl
    · exact absurd hmem hs
    · exact absurd hmem hr
    · rfl

/-- The concrete clean request used to witness the amended claims. -/
def qClean : XacmlRequest :=
  { subject := some [("id", "alice"), ("role", "admin")],
    resource := some [("type", "document")],
    resources := some [[("resource-id", "urn:klf:ds:person")]],
    action := some [("action-id", "read")],
    environment := some [("currentTime", "t0")] }

theorem C2_amended_attribute_scoping_witness :
    cleanRequest qClean ∧
    (buildRequestXml qClean).attributes.countP
      (fun w => decide (mkAttribute subjectUrn "id" "alice" ∈ w.attrElems)) = 1 :=
  ⟨by decide,
    ((C2_amended_attribute_scoping qClean (by decide)).2.1
      (mkAttribute subjectUrn "id" "alice") (by decide)).1⟩

/-- Claim C3 (amended): for clean requests, the encoded document contains
exactly one `<Attributes>` wrapper for each of the subject, resource
(single bag and `resources` array combined) and action categories having at
least one attribute, no wrapper for those of them that are empty, and never
any environment-category wrapper (the environment bag is ignored by the
encoder). -/
theorem C3_amended_one_wrapper_per_category (r : XacmlRequest)
    (hc : cleanRequest r) :
    ((buildRequestXml r).attributes.countP
        (fun w => decide (w.category = subjectCategory)) =
      if bagAttributes subjectUrn r.subject = [] then 0 else 1) ∧
    ((buildRequestXml r).attributes.countP
        (fun w => decide (w.category = resourceCategory)) =
      if bagAttributes resourceUrn r.resource ++ resourcesAttributes r.resources
          = [] then 0 else 1) ∧
    ((buildRequestXml r).attributes.countP
        (fun w => decide (w.category = actionCategory)) =
      if bagAttributes actionUrn r.action = [] then 0 else 1) ∧
    (buildRequestXml r).attributes.countP
        (fun w => decide (w.category = environmentCategory)) = 0 := by
  have hE := encode_clean r hc
  have d1 : (decide (subjectCategory = subjectCategory)) = true := by decide
  have d2 : (decide (resourceCategory = subjectCategory)) = false := by decide
  have d3 : (decide (actionCategory = subjectCategory)) = false := by decide
  have d4 : (decide (subjectCategory = resourceCategory)) = false := by decide
  have d5 : (decide (resourceCategory = resourceCategory)) = true := by decide
  have d6 : (decide (actionCategory = resourceCategory)) = false := by decide
  have d7 : (decide (subjectCategory = actionCategory)) = false := by decide
  have d8 : (decide (resourceCategory = actionCategory)) = false := by decide
  have d9 : (decide (actionCategory = actionCategory)) = true := by decide
  have e1 : (decide (subjectCategory = environmentCategory)) = false := by decide
  have e2 : (decide (resourceCategory = environmentCategory)) = false := by decide
  have e3 : (decide (actionCategory = environmentCategory)) = false := by decide
  rw [hE]
  refine ⟨?_, ?_, ?_, ?_⟩
  · rw [List.countP_filter]
    simp only [List.countP_cons, List.countP_nil, d1, d2, d3]
    cases bagAttributes subjectUrn r.subject <;> simp
  · rw [List.countP_filter]
    simp only [List.countP_cons, List.countP_nil, d4, d5, d6]
    cases bagAttributes resourceUrn r.resource ++ resourcesAttributes r.resources <;>
      simp
  · rw [List.countP_filter]
    simp only [List.countP_cons, List.countP_nil, d7, d8, d9]
    cases bagAttributes actionUrn r.action <;> simp
  · rw [List.countP_filter]
    simp only [List.countP_cons, List.countP_nil, e1, e2, e3]
    simp

theorem C3_amended_one_wrapper_per_category_witness :
    cleanRequest qClean ∧
    (buildRequestXml qClean).attributes.countP
      (fun w => decide (w.category = environmentCategory)) = 0 :=
  ⟨by decide, (C3_amended_one_wrapper_per_category qClean (by decide)).2.2.2⟩

/-! ## The response decoder (`AuthzForceClient.parseDecisionResponse`)

The XPath-based variant parses the response into a DOM tree and queries it
with `local-name()`-based XPath expressions.  The DOM tree is modelled by
`XmlNode`; the three query shapes used by the source are modelled as
document-order (preorder) traversals. -/

/-- A DOM node: an element with qualified tag name, attributes and children,
or a text node. -/
inductive XmlNode where
  | elem (tag : String) (attrs : List (String × String)) (children : List XmlNode)
  | text (data : String)

/-- The remainder of a character list after its first colon, if any. -/
def afterColon : List Char → Option (List Char)
  | [] => none
  | c :: t => if c = ':' then some t else afterColon t

/-- DOM `localName`: the qualified name with a leading `prefix:` removed. -/
def localName (s : String) : String :=
  match afterColon s.data with
  | some t => ⟨t⟩
  | none => s

mutual

/-- XPath `//*[local-name()=nm]/text()` in document order: the text-node children of
every element whose local name is `nm`. -/
def selTexts (nm : String) : XmlNode → List String
  | .text _ => []
  | .elem t _ c => selTextsKids nm (decide (localName t = nm)) c

def selTextsKids (nm : String) (m : Bool) : List XmlNode → List String
  | [] => []
  | XmlNode.text d :: rest => (if m then [d] else []) ++ selTextsKids nm m rest
  | XmlNode.elem t a c :: rest =>
      selTexts nm (XmlNode.elem t a c) ++ selTextsKids nm m rest

end

mutual

/-- XPath `//*[local-name()=nm]/@att` in document order: the values of attribute
`att` on every element whose local name is `nm`. -/
def selAttrVals (nm att : String) : XmlNode → List String
  | .text _ => []
  | .elem t a c =>
      (if localName t = nm then
        match a.lookup att with
        | some v => [v]
        | none => []
      else []) ++ selAttrValsKids nm att c

def selAttrValsKids (nm att : String) : List XmlNode → List String
  | [] => []
  | XmlNode.text _ :: rest => selAttrValsKids nm att rest
  | XmlNode.elem t a c :: rest =>
      selAttrVals nm att (XmlNode.elem t a c) ++ selAttrValsKids nm att rest

end

mutual

/-- XPath `//*[local-name()=nm]` in document order: every element whose local name
is `nm`. -/
def selElems (nm : String) : XmlNode → List XmlNode
  | .text _ => []
  | .elem t a c =>
      (if localName t = nm then [XmlNode.elem t a c] else []) ++ selElemsKids nm c

def selElemsKids (nm : String) : List XmlNode → List XmlNode
  | [] => []
  | XmlNode.text _ :: rest => selElemsKids nm rest
  | XmlNode.elem t a c :: rest =>
      selElems nm (XmlNode.elem t a c) ++ selElemsKids nm rest

end

mutual

/-- Whether the document contains an element with local name `nm`. -/
def hasElem (nm : String) : XmlNode → Bool
  | .text _ => false
  | .elem t _ c => decide (localName t = nm) || hasElemKids nm c

def hasElemKids (nm : String) : List XmlNode → Bool
  | [] => false
  | XmlNode.text _ :: rest => hasElemKids nm rest
  | XmlNode.elem t a c :: rest =>
      hasElem nm (XmlNode.elem t a c) || hasElemKids nm rest

end

/-- The decision object returned by `parseDecisionResponse`: the `obligations`
and `advice` fields hold the selected DOM nodes, as in the source. -/
structure XacmlDecisionResponse where
  decision : String
  status : Option String
  obligations : List XmlNode
  advice : List XmlNode

/-- The xmldom attribute-value encoder: when serializing, attribute values are
passed through `value.replace(/[<>&"\t\n\r]/g, _xmlEncoder)`, where
`_xmlEncoder` maps `<` `>` `&` `"` to their entities and any other matched
character (here tab, newline, carriage return) to its decimal character
reference `&#code;`. -/
def xmldomAttrEscape (v : List Char) : List Char :=
  v.flatMap (fun c =>
    if c = '<' then "&lt;".data
    else if c = '>' then "&gt;".data
    else if c = '&' then "&amp;".data
    else if c = '"' then "&quot;".data
    else if c = '\t' then "&#9;".data
    else if c = '\n' then "&#10;".data
    else if c = '\r' then "&#13;".data
    else [c])

/-- The result of calling `toString()` on an xmldom attribute node: the
serializer's `ATTRIBUTE_NODE` case pushes a leading space, the attribute
name, `="`, the escaped value and a closing quote — never the bare value.
This string starts with a space, so it is nonempty (JS-truthy) even when the
attribute value itself is empty. -/
def attrNodeToString (name v : String) : String :=
  " " ++ name ++ "=\"" ++ (⟨xmldomAttrEscape v.data⟩ : String) ++ "\""

/-- Source `AuthzForceClient.parseDecisionResponse` (XPath variant): first `Decision`
text, first `StatusCode/@Value`, all `Obligation` and `Advice` elements; a
missing (or empty, hence JS-falsy) decision is a thrown error. The XPath query
for the status yields the attribute NODE, and `?.toString()` on it produces
the xmldom serialization `attrNodeToString "Value" v` (not the bare value
`v`); `statusCode || null` then maps a JS-falsy (empty) string to `none`,
which in fact never fires because the serialization is nonempty. -/
def parseDecisionResponse (doc : XmlNode) : Except String XacmlDecisionResponse :=
  match (selTexts "Decision" doc).head? with
  | none => .error "No Decision element found in response"
  | some d =>
    if d = "" then .error "No Decision element found in response"
    else
      .ok { decision := d
            status :=
              match (selAttrVals "StatusCode" "Value" doc).head? with
              | some v =>
                if attrNodeToString "Value" v = "" then none
                else some (attrNodeToString "Value" v)
              | none => none
            obligations := selElems "Obligation" doc
            advice := selElems "Advice" doc }

mutual

/-- Prefix every element tag of the document with `ns3:`. -/
def addNs3 : XmlNode → XmlNode
  | .text d => .text d
  | .elem t a c => .elem ("ns3:" ++ t) a (addNs3Kids c)

def addNs3Kids : List XmlNode → List XmlNode
  | [] => []
  | n :: rest => addNs3 n :: addNs3Kids rest

end

mutual

/-- Whether every element tag of the document is colon-free (the unprefixed
variant of a response). -/
def noColonTags : XmlNode → Bool
  | .text _ => true
  | .elem t _ c => decide (afterColon t.data = none) && noColonTagsKids c

def noColonTagsKids : List XmlNode → Bool
  | [] => true
  | n :: rest => noColonTags n && noColonTagsKids rest

end

lemma localName_ns3 (t : String) : localName ("ns3:" ++ t) = t := rfl

lemma localName_noColon {t : String} (h : afterColon t.data = none) :
    localName t = t := by
  unfold localName
  rw [h]

mutual

theorem selTexts_of_hasElem_false (nm : String) :
    ∀ x : XmlNode, hasElem nm x = false → selTexts nm x = []
  | .text _, _ => rfl
  | .elem t a c, h => by
      have h' := h
      simp only [hasElem, Bool.or_eq_false_iff] at h'
      show selTextsKids nm (decide (localName t = nm)) c = []
      rw [h'.1]
      exact selTextsKids_of_hasElem_false nm c h'.2

theorem selTextsKids_of_hasElem_false (nm : String) :
    ∀ l : List XmlNode, hasElemKids nm l = false → selTextsKids nm false l = []
  | [], _ => rfl
  | XmlNode.text d :: rest, h => by
      show (if false then [d] else []) ++ selTextsKids nm false rest = []
      rw [selTextsKids_of_hasElem_false nm rest h]
      rfl
  | XmlNode.elem t a c :: rest, h => by
      have h' := h
      simp only [hasElemKids, Bool.or_eq_false_iff] at h'
      show selTexts nm (XmlNode.elem t a c) ++ selTextsKids nm false rest = []
      rw [selTexts_of_hasElem_false nm (XmlNode.elem t a c) h'.1,
        selTextsKids_of_hasElem_false nm rest h'.2]
      rfl

end

mutual

theorem selTexts_addNs3 (nm : String) :
    ∀ x : XmlNode, noColonTags x = true → selTexts nm (addNs3 x) = selTexts nm x
  | .text _, _ => rfl
  | .elem t a c, h => by
      have h' := h
      simp only [noColonTags, Bool.and_eq_true, decide_eq_true_eq] at h'
      show selTextsKids nm (decide (localName ("ns3:" ++ t) = nm)) (addNs3Kids c) =
        selTextsKids nm (decide (localName t = nm)) c
      rw [localName_ns3, localName_noColon h'.1]
      exact selTextsKids_addNs3 nm (decide (t = nm)) c h'.2

theorem selTextsKids_addNs3 (nm : String) (m : Bool) :
    ∀ l : List XmlNode, noColonTagsKids l = true →
      selTextsKids nm m (addNs3Kids l) = selTextsKids nm m l
  | [], _ => rfl
  | XmlNode.text d :: rest, h => by
      have h' := h
      simp only [noColonTagsKids, Bool.and_eq_true] at h'
      show (if m then [d] else []) ++ selTextsKids nm m (addNs3Kids rest) = _
      rw [selTextsKids_addNs3 nm m rest h'.2]
      rfl
  | XmlNode.elem t a c :: rest, h => by
      have h' := h
      simp only [noColonTagsKids, Bool.and_eq_true] at h'
      show selTexts nm (addNs3 (XmlNode.elem t a c)) ++
          selTextsKids nm m (addNs3Kids rest) = _
      rw [selTexts_addNs3 nm (XmlNode.elem t a c) h'.1,
        selTextsKids_addNs3 nm m rest h'.2]
      rfl

end

mutual

theorem selAttrVals_addNs3 (nm att : String) :
    ∀ x : XmlNode, noColonTags x = true →
      selAttrVals nm att (addNs3 x) = selAttrVals nm att x
  | .text _, _ => rfl
  | .elem t a c, h => by
      have h' := h
      simp only [noColonTags, Bool.and_eq_true, decide_eq_true_eq] at h'
      show (if localName ("ns3:" ++ t) = nm then
              match a.lookup att with
              | some v => [v]
              | none => []
            else []) ++ selAttrValsKids nm att (addNs3Kids c) =
          (if localName t = nm then
              match a.lookup att with
              | some v => [v]
              | none => []
            else []) ++ selAttrValsKids nm att c
      rw [localName_ns3, localName_noColon h'.1,
        selAttrValsKids_addNs3 nm att c h'.2]

theorem selAttrValsKids_addNs3 (nm att : String) :
    ∀ l : List XmlNode, noColonTagsKids l = true →
      selAttrValsKids nm att (addNs3Kids l) = selAttrValsKids nm att l
  | [], _ => rfl
  | XmlNode.text d :: rest, h => by
      have h' := h
      simp only [noColonTagsKids, Bool.and_eq_true] at h'
      show selAttrValsKids nm att (addNs3Kids rest) = _
      rw [selAttrValsKids_addNs3 nm att rest h'.2]
      rfl
  | XmlNode.elem t a c :: rest, h => by
      have h' := h
      simp only [noColonTagsKids, Bool.and_eq_true] at h'
      show selAttrVals nm att (addNs3 (XmlNode.elem t a c)) ++
          selAttrValsKids nm att (addNs3Kids rest) = _
      rw [selAttrVals_addNs3 nm att (XmlNode.elem t a c) h'.1,
        selAttrValsKids_addNs3 nm att rest h'.2]
      rfl

end

mutual

theorem selElems_addNs3 (nm : String) :
    ∀ x : XmlNode, noColonTags x = true →
      selElems nm (addNs3 x) = (selElems nm x).map addNs3
  | .text _, _ => rfl
  | .elem t a c, h => by
      have h' := h
      simp only [noColonTags, Bool.and_eq_true, decide_eq_true_eq] at h'
      show (if localName ("ns3:" ++ t) = nm then
              [XmlNode.elem ("ns3:" ++ t) a (addNs3Kids c)]
            else []) ++ selElemsKids nm (addNs3Kids c) =
          ((if localName t = nm then [XmlNode.elem t a c] else []) ++
            selElemsKids nm c).map addNs3
      rw [localName_ns3, localName_noColon h'.1,
        selElemsKids_addNs3 nm c h'.2, List.map_append]
      by_cases hnm : t = nm <;> simp [hnm, addNs3]

theorem selElemsKids_addNs3 (nm : String) :
    ∀ l : List XmlNode, noColonTagsKids l = true →
      selElemsKids nm (addNs3Kids l) = (selElemsKids nm l).map addNs3
  | [], _ => rfl
  | XmlNode.text d :: rest, h => by
      have h' := h
      simp only [noColonTagsKids, Bool.and_eq_true] at h'
      show selElemsKids nm (addNs3Kids rest) = _
      rw [selElemsKids_addNs3 nm rest h'.2]
      rfl
  | XmlNode.elem t a c :: rest, h => by
      have h' := h
      simp only [noColonTagsKids, Bool.and_eq_true] at h'
      show selElems nm (addNs3 (XmlNode.elem t a c)) ++
          selElemsKids nm (addNs3Kids rest) = _
      rw [selElems_addNs3 nm (XmlNode.elem t a c) h'.1,
        selElemsKids_addNs3 nm rest h'.2]
      show _ = (selElems nm (XmlNode.elem t a c) ++ selElemsKids nm rest).map addNs3
      rw [List.map_append]

end

/-! ## Claims C1, C6 and C4 -/

/-- Claim C1: on every response document with no `Decision` element,
`parseDecisionResponse` raises the decode error instead of returning any
decision value — a missing decision is never defaulted. -/
theorem C1_missing_decision_is_error (doc : XmlNode)
    (h : hasElem "Decision" doc = false) :
    parseDecisionResponse doc =
      Except.error "No Decision element found in response" := by
  unfold parseDecisionResponse
  rw [selTexts_of_hasElem_false "Decision" doc h]
  rfl

/-- A well-formed response that carries a `Status` but no `Decision`. -/
def docNoDecision : XmlNode :=
  .elem "Response" []
    [.elem "Result" []
      [.elem "Status" []
        [.elem "StatusCode"
          [("Value", "urn:oasis:names:tc:xacml:1.0:status:ok")] []]]]

theorem C1_missing_decision_is_error_witness :
    hasElem "Decision" docNoDecision = false ∧
    parseDecisionResponse docNoDecision =
      Except.error "No Decision element found in response" :=
  ⟨by decide, C1_missing_decision_is_error docNoDecision (by decide)⟩

/-- The concrete Permit/ok response of claim C6. -/
def doc6ok : XmlNode :=
  .elem "Response" []
    [.elem "Result" []
      [.elem "Decision" [] [.text "Permit"],
       .elem "Status" []
        [.elem "StatusCode"
          [("Value", "urn:oasis:names:tc:xacml:1.0:status:ok")] []]]]

/-- Claim C6 (code bug): on the claimed Permit/ok response the code does not
return the bare `Value` attribute as `status`. The XPath query selects the
attribute node, and `?.toString()` serializes it the xmldom way — leading
space, attribute name, `="`, escaped value, closing quote — so the decoded
status is the string ` Value="urn:oasis:names:tc:xacml:1.0:status:ok"`, not
the URN the claim (and the spec) state; being nonempty it is also JS-truthy,
so the `|| null` guard never turns it into null. The documented intent — the
bare attribute value — is what the repository itself implements everywhere
else (`.nodeValue` on XPath attribute results, and the parallel xml2js
decoder's `.$.Value`), so the `toString()` here is a slip in the code, not in
the claim. The theorem evaluates the decoder at the claimed input and records
that the produced status differs from the claimed one. -/
theorem C6_bug_status_is_serialized_attribute :
    parseDecisionResponse doc6ok =
      Except.ok { decision := "Permit",
                  status :=
                    some " Value=\"urn:oasis:names:tc:xacml:1.0:status:ok\"",
                  obligations := [], advice := [] } ∧
    (" Value=\"urn:oasis:names:tc:xacml:1.0:status:ok\"" : String) ≠
      "urn:oasis:names:tc:xacml:1.0:status:ok" ∧
    attrNodeToString "Value" "" ≠ "" :=
  ⟨rfl, by decide, by decide⟩

/-- Claim C4: decoding the `ns3:`-prefixed variant of a response document
yields the identical result as decoding the unprefixed variant — the same
decision, the same status, the same error on failure, and the obligations and
advice lists select exactly the corresponding elements of the document (the
`ns3:`-prefixed rendering of the ones selected in the unprefixed variant). -/
theorem C4_ns3_independent_decoding (doc : XmlNode)
    (h : noColonTags doc = true) :
    parseDecisionResponse (addNs3 doc) =
      (parseDecisionResponse doc).map (fun r =>
        { r with obligations := r.obligations.map addNs3,
                 advice := r.advice.map addNs3 }) := by
  unfold parseDecisionResponse
  rw [selTexts_addNs3 _ doc h, selAttrVals_addNs3 _ _ doc h,
    selElems_addNs3 _ doc h, selElems_addNs3 _ doc h]
  cases (selTexts "Decision" doc).head? with
  | none => rfl
  | some d =>
    by_cases hde : d = "" <;> simp [hde, Except.map]

theorem C4_ns3_independent_decoding_witness :
    noColonTags doc6ok = true ∧
    parseDecisionResponse (addNs3 doc6ok) =
      (parseDecisionResponse doc6ok).map (fun r =>
        { r with obligations := r.obligations.map addNs3,
                 advice := r.advice.map addNs3 }) :=
  ⟨by decide, C4_ns3_independent_decoding doc6ok (by decide)⟩

/-! ## The pretty-printer (`formatXML` of scripts/build-xacml.js) -/

/-- The JavaScript `\s` whitespace class (ASCII part, as relevant here). -/
def jsWs (c : Char) : Bool :=
  c = ' ' || c = '\t' || c = '\n' || c = '\r' || c = '\x0b' || c = '\x0c'

/-- JavaScript `hay.indexOf(needle, start)` scanning the suffix starting at `start`. -/
def idxFromAux (needle : List Char) : List Char → Nat → Option Nat
  | [], start => if needle.isEmpty then some start else none
  | c :: rest, start =>
      if needle.isPrefixOf (c :: rest) then some start
      else idxFromAux needle rest (start + 1)

/-- JavaScript `hay.indexOf(needle, start)` (`none` instead of `-1`). -/
def idxFrom (needle hay : List Char) (start : Nat) : Option Nat :=
  idxFromAux needle (hay.drop start) start

/-- JavaScript `s.substring(a, b)` for `a ≤ b`. -/
def subStr (l : List Char) (a b : Nat) : List Char :=
  (l.drop a).take (b - a)

/-- A character allowed by the tag-name regex `[\w:-]`. -/
def isTagNameChar (c : Char) : Bool :=
  c.isAlpha || c.isDigit || c = '_' || c = ':' || c = '-'

/-- JavaScript `fullTag.match(/^<([\w:-]+)/)`: the captured tag name, if any. -/
def extractTagName (fullTag : List Char) : Option (List Char) :=
  match fullTag with
  | '<' :: rest =>
      let nm := rest.takeWhile isTagNameChar
      if nm.isEmpty then none else some nm
  | _ => none

/-- JavaScript `content.trim()` is truthy: some character is not whitespace. -/
def hasNonWs (l : List Char) : Bool := l.any (fun c => !jsWs c)

/-- JavaScript `'  '.repeat(level)`: throws a RangeError on a negative
count. -/
def jsRepeat (s : List Char) (n : Int) : Except (List Char) (List Char) :=
  if n < 0 then .error ("Invalid count value".data)
  else .ok (List.replicate n.toNat s).flatten

/-- The scanner state of `formatXML`: scan position, indent level and the
`result` lines pushed so far. -/
structure ScanSt where
  i : Nat
  level : Int
  acc : List (List Char)

inductive StepOut where
  | cont (st : ScanSt)
  | stop (acc : List (List Char))
  | fail (msg : List Char)

/-- One iteration of the `while` loop in `formatXML`. -/
def scanStep (xml : List Char) (st : ScanSt) : StepOut :=
  if st.i < xml.length then
    match idxFrom ['<'] xml st.i with
    | none => .stop st.acc
    | some tagStart =>
      match idxFrom ['>'] xml tagStart with
      | none => .stop st.acc
      | some tagEnd =>
        let fullTag := subStr xml tagStart (tagEnd + 1)
        if ("<?".data).isPrefixOf fullTag || ("<!--".data).isPrefixOf fullTag then
          .cont ⟨tagEnd + 1, st.level, st.acc ++ [fullTag]⟩
        else if ("</".data).isPrefixOf fullTag then
          match jsRepeat ("  ".data) (st.level - 1) with
          | .error e => .fail e
          | .ok ind => .cont ⟨tagEnd + 1, st.level - 1, st.acc ++ [ind ++ fullTag]⟩
        else if ("/>".data).isSuffixOf fullTag then
          match jsRepeat ("  ".data) st.level with
          | .error e => .fail e
          | .ok ind => .cont ⟨tagEnd + 1, st.level, st.acc ++ [ind ++ fullTag]⟩
        else
          match extractTagName fullTag with
          | none => .fail ("Failed to extract tag name from XML.".data)
          | some tagName =>
            match idxFrom (("</".data) ++ tagName ++ ['>']) xml (tagEnd + 1) with
            | some closingTagStart =>
              let innerContent := subStr xml (tagEnd + 1) closingTagStart
              if !(innerContent.contains '<') && hasNonWs innerContent then
                match jsRepeat ("  ".data) st.level with
                | .error e => .fail e
                | .ok ind =>
                    .cont ⟨closingTagStart + (("</".data) ++ tagName ++ ['>']).length,
                      st.level,
                      st.acc ++ [ind ++ fullTag ++ innerContent ++
                        (("</".data) ++ tagName ++ ['>'])]⟩
              else
                match jsRepeat ("  ".data) st.level with
                | .error e => .fail e
                | .ok ind => .cont ⟨tagEnd + 1, st.level + 1, st.acc ++ [ind ++ fullTag]⟩
            | none =>
              match jsRepeat ("  ".data) st.level with
              | .error e => .fail e
              | .ok ind => .cont ⟨tagEnd + 1, st.level + 1, st.acc ++ [ind ++ fullTag]⟩
  else .stop st.acc

/-- The fuelled scan loop; every iteration advances `i`, so `length + 1` fuel
always suffices. -/
def scanRun (xml : List Char) : Nat → ScanSt → Except (List Char) (List (List Char))
  | 0, st => .ok st.acc
  | fuel + 1, st =>
    match scanStep xml st with
    | .stop acc => .ok acc
    | .fail e => .error e
    | .cont st2 => scanRun xml fuel st2

/-- JavaScript `result.join('\n')`. -/
def joinLines : List (List Char) → List Char
  | [] => []
  | [l] => l
  | l :: rest => l ++ '\n' :: joinLines rest

/-- Source `formatXML` of scripts/build-xacml.js. -/
def formatXML (xml : List Char) : Except (List Char) (List Char) :=
  (scanRun xml (xml.length + 1) ⟨0, 0, []⟩).map joinLines

/-- Claim C7: when the scanner of `formatXML` encounters an opening tag whose
content up to its matching closing tag contains no further `<` and is not all
whitespace, it emits opening tag, text and closing tag as one single output
line at the current indent level (two spaces per level), leaves the level
unchanged, and resumes scanning right after the closing tag.  The hypotheses
are exactly the guards of the source's loop body, in order: the scan pointer
is in range, `indexOf('<', i)` and `indexOf('>', tagStart)` both hit, the tag
is neither a declaration, a comment, a closing tag nor self-closing, the
`/^<([\w:-]+)/` match succeeds, `indexOf('</tagName>', tagEnd + 1)` hits, and
the inner content has no `<` and a nonempty trim; `0 ≤ st.level` makes
`'  '.repeat(indentLevel)` well-defined.  The closing tag found by `indexOf`
is the FIRST `</tagName>` after the opening tag, which under the no-`<`
hypothesis is the matching one of the claim.  The second conjunct is the
claim's concrete instance run end to end: the leaf `<A>text</A>` inside `<B>`
comes out on one line, one level below `B`. -/
theorem C7_inline_text_leaf (xml : List Char) (st : ScanSt)
    (tagStart tagEnd closingTagStart : Nat) (tagName : List Char)
    (hlt : st.i < xml.length)
    (h1 : idxFrom ['<'] xml st.i = some tagStart)
    (h2 : idxFrom ['>'] xml tagStart = some tagEnd)
    (h3 : ("<?".data).isPrefixOf (subStr xml tagStart (tagEnd + 1)) = false)
    (h4 : ("<!--".data).isPrefixOf (subStr xml tagStart (tagEnd + 1)) = false)
    (h5 : ("</".data).isPrefixOf (subStr xml tagStart (tagEnd + 1)) = false)
    (h6 : ("/>".data).isSuffixOf (subStr xml tagStart (tagEnd + 1)) = false)
    (h7 : extractTagName (subStr xml tagStart (tagEnd + 1)) = some tagName)
    (h8 : idxFrom (("</".data) ++ tagName ++ ['>']) xml (tagEnd + 1) =
      some closingTagStart)
    (h9 : (subStr xml (tagEnd + 1) closingTagStart).contains '<' = false)
    (h10 : hasNonWs (subStr xml (tagEnd + 1) closingTagStart) = true)
    (h11 : 0 ≤ st.level) :
    scanStep xml st =
      StepOut.cont ⟨closingTagStart + (("</".data) ++ tagName ++ ['>']).length,
        st.level,
        st.acc ++ [(List.replicate st.level.toNat ("  ".data)).flatten ++
          subStr xml tagStart (tagEnd + 1) ++
          subStr xml (tagEnd + 1) closingTagStart ++
          (("</".data) ++ tagName ++ ['>'])]⟩ ∧
    formatXML ("<B><A>text</A></B>".data) =
      Except.ok ("<B>\n  <A>text</A>\n</B>".data) := by
  have hnotlt : ¬ st.level < 0 := by omega
  constructor
  · simp only [scanStep, hlt, if_true, h1, h2, h3, h4, h5, h6, h7, h8, h9, h10,
      jsRepeat, hnotlt, if_false, Bool.or_false, Bool.false_or, Bool.not_false,
      Bool.true_and, if_true]
    simp
  · rfl

theorem C7_inline_text_leaf_witness :
    formatXML ("<B><A>text</A></B>".data) =
      Except.ok ("<B>\n  <A>text</A>\n</B>".data) ∧
    scanStep ("<B><A>text</A></B>".data) ⟨3, 1, ["<B>".data]⟩ =
      StepOut.cont ⟨14, 1, ["<B>".data, "  <A>text</A>".data]⟩ := by
  have h := C7_inline_text_leaf ("<B><A>text</A></B>".data) ⟨3, 1, ["<B>".data]⟩
    3 5 10 ("A".data) (by decide) (by decide) (by decide) (by decide) (by decide)
    (by decide) (by decide) (by decide) (by decide) (by decide) (by decide)
    (by decide)
  exact ⟨h.2, h.1⟩

/-! ## The readiness gate (`XacmlTestUtils.waitForCondition`)

The loop is modelled over an explicit clock: `now j` is the value returned by
the `j`-th call of `Date.now()` (`now 0` is `startTime`; iteration `k` reads
`now (k+1)` in the `while` guard).  `pred k` is the result of the `k`-th
invocation of the condition.  Besides the returned boolean, the model records
the trace of condition polls and sleeps. -/

inductive WaitEv where
  | poll (k : Nat)
  | sleep (ms : Nat)
deriving DecidableEq

/-- The `while` loop of `waitForCondition`, with fuel (the source loop is
bounded by the clock reaching the timeout). -/
def waitAux (pred : Nat → Bool) (now : Nat → Nat) (tmo itv : Nat) :
    Nat → Nat → Bool × List WaitEv
  | 0, _ => (false, [])
  | fuel + 1, k =>
    if now (k + 1) - now 0 < tmo then
      if pred k then (true, [WaitEv.poll k])
      else
        let r := waitAux pred now tmo itv fuel (k + 1)
        (r.1, WaitEv.poll k :: WaitEv.sleep itv :: r.2)
    else (false, [])

/-- Source `XacmlTestUtils.waitForCondition` with condition results `pred`, clock
`now`, timeout `tmo` and interval `itv`. -/
def waitForCondition (pred : Nat → Bool) (now : Nat → Nat)
    (tmo itv fuel : Nat) : Bool × List WaitEv :=
  waitAux pred now tmo itv fuel 0

lemma waitAux_success (pred : Nat → Bool) (now : Nat → Nat) (tmo itv K : Nat) :
    ∀ fuel k, k ≤ K → K < k + fuel →
      (∀ j, k ≤ j → j < K → pred j = false) → pred K = true →
      (∀ j, k ≤ j → j ≤ K → now (j + 1) - now 0 < tmo) →
      waitAux pred now tmo itv fuel k =
        (true, (List.range' k (K - k)).flatMap
            (fun j => [WaitEv.poll j, WaitEv.sleep itv]) ++ [WaitEv.poll K])
  | 0, k, hk, hfuel, _, _, _ => by omega
  | fuel + 1, k, hk, hfuel, h1, h2, h3 => by
    have hg : now (k + 1) - now 0 < tmo := h3 k le_rfl hk
    by_cases hkK : k = K
    · subst hkK
      simp [waitAux, hg, h2]
    · have hlt : k < K := lt_of_le_of_ne hk hkK
      have hp : pred k = false := h1 k le_rfl hlt
      have hrec := waitAux_success pred now tmo itv K fuel (k + 1)
        hlt (by omega) (fun j hj hj2 => h1 j (by omega) hj2) h2
        (fun j hj hj2 => h3 j (by omega) hj2)
      simp only [waitAux, hg, if_true, hp, Bool.false_eq_true, if_false, hrec]
      have hrange : List.range' k (K - k) = k :: List.range' (k + 1) (K - (k + 1)) := by
        have he : K - k = (K - (k + 1)) + 1 := by omega
        rw [he, List.range'_succ]
      rw [hrange]
      simp

lemma waitAux_timeout (pred : Nat → Bool) (now : Nat → Nat) (tmo itv M : Nat) :
    ∀ fuel k, k ≤ M → M < k + fuel →
      (∀ j, k ≤ j → j < M → now (j + 1) - now 0 < tmo ∧ pred j = false) →
      ¬ (now (M + 1) - now 0 < tmo) →
      waitAux pred now tmo itv fuel k =
        (false, (List.range' k (M - k)).flatMap
            (fun j => [WaitEv.poll j, WaitEv.sleep itv]))
  | 0, k, hk, hfuel, _, _ => by omega
  | fuel + 1, k, hk, hfuel, h1, h2 => by
    by_cases hkM : k = M
    · subst hkM
      simp [waitAux, h2]
    · have hlt : k < M := lt_of_le_of_ne hk hkM
      have hg : now (k + 1) - now 0 < tmo := (h1 k le_rfl hlt).1
      have hp : pred k = false := (h1 k le_rfl hlt).2
      have hrec := waitAux_timeout pred now tmo itv M fuel (k + 1)
        hlt (by omega) (fun j hj hj2 => h1 j (by omega) hj2) h2
      simp only [waitAux, hg, if_true, hp, Bool.false_eq_true, if_false, hrec]
      have hrange : List.range' k (M - k) = k :: List.range' (k + 1) (M - (k + 1)) := by
        have he : M - k = (M - (k + 1)) + 1 := by omega
        rw [he, List.range'_succ]
      rw [hrange]
      simp

lemma waitAux_trace_shape (pred : Nat → Bool) (now : Nat → Nat) (tmo itv : Nat) :
    ∀ fuel k i e, ((waitAux pred now tmo itv fuel k).2)[i]? = some e →
      e = if i % 2 = 0 then WaitEv.poll (k + i / 2) else WaitEv.sleep itv
  | 0, k, i, e => by
    intro h
    simp [waitAux] at h
  | fuel + 1, k, i, e => by
    intro h
    by_cases hg : now (k + 1) - now 0 < tmo
    · by_cases hp : pred k = true
      · simp only [waitAux, hg, if_true, hp] at h
        match i, h with
        | 0, h =>
          simp at h
          simp [← h]
        | j + 1, h => simp at h
      · rw [Bool.not_eq_true] at hp
        simp only [waitAux, hg, if_true, hp, Bool.false_eq_true, if_false] at h
        match i, h with
        | 0, h =>
          simp at h
          simp [← h]
        | 1, h =>
          simp at h
          simp [← h]
        | j + 2, h =>
          simp only [List.getElem?_cons_succ] at h
          have hrec := waitAux_trace_shape pred now tmo itv fuel (k + 1) j e h
          rw [hrec]
          have hm : (j + 2) % 2 = j % 2 := by omega
          rw [hm]
          by_cases hj : j % 2 = 0
          · rw [if_pos hj, if_pos hj]
            have : k + 1 + j / 2 = k + (j + 2) / 2 := by omega
            rw [this]
          · rw [if_neg hj, if_neg hj]
    · simp only [waitAux, hg, if_false] at h
      simp at h

/-- Claim C9: for every predicate, clock, timeout and interval, the readiness
gate `waitForCondition` (1) returns `true` as soon as an invocation of the
predicate returns `true` while every elapsed-time guard up to it is still
below the timeout — the trace ends at that successful poll; (2) when the
predicate never returns `true` before the clock reaches the timeout it
returns `false` (a value, not an exception), after a trace in which every
unsuccessful poll is followed by one sleep; and (3) the trace always strictly
alternates `poll 0, sleep itv, poll 1, sleep itv, ...` — between two
consecutive predicate invocations exactly one sleep of the given interval
occurs, and it never polls twice without sleeping. -/
theorem C9_waitForCondition_contract (pred : Nat → Bool) (now : Nat → Nat)
    (tmo itv fuel : Nat) :
    (∀ K, K < fuel → (∀ j, j < K → pred j = false) → pred K = true →
      (∀ j, j ≤ K → now (j + 1) - now 0 < tmo) →
      waitForCondition pred now tmo itv fuel =
        (true, (List.range' 0 K).flatMap
            (fun j => [WaitEv.poll j, WaitEv.sleep itv]) ++ [WaitEv.poll K])) ∧
    (∀ M, M < fuel →
      (∀ j, j < M → now (j + 1) - now 0 < tmo ∧ pred j = false) →
      ¬ (now (M + 1) - now 0 < tmo) →
      waitForCondition pred now tmo itv fuel =
        (false, (List.range' 0 M).flatMap
            (fun j => [WaitEv.poll j, WaitEv.sleep itv]))) ∧
    (∀ i e, ((waitForCondition pred now tmo itv fuel).2)[i]? = some e →
      e = if i % 2 = 0 then WaitEv.poll (i / 2) else WaitEv.sleep itv) := by
  refine ⟨fun K hK h1 h2 h3 => ?_, fun M hM h1 h2 => ?_, fun i e h => ?_⟩
  · have := waitAux_success pred now tmo itv K fuel 0 (Nat.zero_le K)
      (by omega) (fun j _ hj => h1 j hj) h2 (fun j _ hj => h3 j hj)
    simpa [waitForCondition] using this
  · have := waitAux_timeout pred now tmo itv M fuel 0 (Nat.zero_le M)
      (by omega) (fun j _ hj => h1 j hj) h2
    simpa [waitForCondition] using this
  · have := waitAux_trace_shape pred now tmo itv fuel 0 i e h
    simpa using this

theorem C9_waitForCondition_contract_witness :
    waitForCondition (fun k => decide (k = 2)) (fun j => j * 100) 1000 100 10 =
      (true, [WaitEv.poll 0, WaitEv.sleep 100, WaitEv.poll 1, WaitEv.sleep 100,
              WaitEv.poll 2]) ∧
    waitForCondition (fun _ => false) (fun j => j * 100) 300 100 10 =
      (false, [WaitEv.poll 0, WaitEv.sleep 100, WaitEv.poll 1, WaitEv.sleep 100]) := by
  constructor
  · have h := (C9_waitForCondition_contract (fun k => decide (k = 2))
      (fun j => j * 100) 1000 100 10).1 2 (by decide)
      (by decide) (by decide) (by decide)
    exact h
  · have h := (C9_waitForCondition_contract (fun _ => false)
      (fun j => j * 100) 300 100 10).2.1 2 (by decide)
      (by decide) (by decide)
    exact h

/-! ## The namespace rewriter (`transformXacmlNamespace` of
scripts/build-xacml.js)

JavaScript `String.replace` is modelled on `List Char`: a global replace
scans left to right and, at each match, continues right after the consumed
match (never rescanning the already-produced output).  The recursions jump
forward by the match length, so they are written with an explicit fuel
(`length` always suffices) to stay structurally recursive. -/

/-- JavaScript `s.replace(/xmlns:xacml3="[^"]*"/g, '')`, fuelled.  At each position the
regex matches the literal `xmlns:xacml3="` followed by the shortest run up to
a closing quote; if no closing quote exists the regex cannot match there. -/
def stripDeclF : Nat → List Char → List Char
  | 0, l => l
  | _ + 1, [] => []
  | f + 1, c :: rest =>
    if ("xmlns:xacml3=\"".data).isPrefixOf (c :: rest) then
      match ((c :: rest).drop 14).indexOf? '"' with
      | some q => stripDeclF f (((c :: rest).drop 14).drop (q + 1))
      | none => c :: stripDeclF f rest
    else c :: stripDeclF f rest

def stripDecl (l : List Char) : List Char := stripDeclF l.length l

/-- JavaScript `s.replace(needle-as-literal-regex/g, '')`, fuelled. -/
def stripAllF (needle : List Char) : Nat → List Char → List Char
  | 0, l => l
  | _ + 1, [] => []
  | f + 1, c :: rest =>
    if needle.isPrefixOf (c :: rest) then
      stripAllF needle f ((c :: rest).drop needle.length)
    else c :: stripAllF needle f rest

def stripAll (needle l : List Char) : List Char := stripAllF needle l.length l

/-- JavaScript `s.replace(needle-as-plain-regex, rep)`: first occurrence only. -/
def replaceFirst (needle rep : List Char) : List Char → List Char
  | [] => []
  | c :: rest =>
    if needle.isPrefixOf (c :: rest) then
      rep ++ (c :: rest).drop needle.length
    else c :: replaceFirst needle rep rest

/-- JavaScript `s.replace(/\s+/g, ' ')`, fuelled. -/
def collapseWsF : Nat → List Char → List Char
  | 0, l => l
  | _ + 1, [] => []
  | f + 1, c :: rest =>
    if jsWs c then ' ' :: collapseWsF f (rest.dropWhile jsWs)
    else c :: collapseWsF f rest

def collapseWs (l : List Char) : List Char := collapseWsF l.length l

/-- The inserted `PolicySet` start with the canonical default namespace. -/
def policySetIns : List Char :=
  "<PolicySet xmlns=\"urn:oasis:names:tc:xacml:3.0:core:schema:wd-17\" ".data

/-- Source `transformXacmlNamespace` of scripts/build-xacml.js: strip the
`xmlns:xacml3` declarations, strip every `xacml3:` prefix occurrence, install
the default namespace on the first `<PolicySet ` and collapse whitespace
runs. -/
def transformXacmlNamespace (xml : List Char) : List Char :=
  collapseWs (replaceFirst ("<PolicySet ".data) policySetIns
    (stripAll ("xacml3:".data) (stripDecl xml)))

/-- The splice demonstration input: the attribute value `xacml3xacml3::`
contains two overlapping-after-removal fragments. -/
def c8spliceIn : List Char :=
  "<PolicySet xmlns:xacml3=\"u\" e=\"xacml3xacml3::\"/>".data

/-- Splice demonstration (motivating the token-hygiene hypotheses of the
amended claim C8): the single left-to-right pass of `replace(/xacml3:/g, '')`
removes the middle occurrence of `c8spliceIn` and thereby joins the
surrounding fragments into a NEW `xacml3:` occurrence, so on raw text where
`xacml3` does not occur only as a whole prefix token, the output of
`transformXacmlNamespace` can still contain `xacml3:`. -/
theorem stripAll_splices_new_occurrence_demo :
    listIncludes ("xacml3:".data) (transformXacmlNamespace c8spliceIn) = true ∧
    transformXacmlNamespace c8spliceIn =
      ("<PolicySet xmlns=\"urn:oasis:names:tc:xacml:3.0:core:schema:wd-17\" e=\"xacml3:\"/>").data :=
  ⟨rfl, rfl⟩

/-- The counterexample input of claim C8: a well-formed authoring document
whose root start tag has a line break (not a space) before its first
attribute, as a pretty-printer would emit it. -/
def c8nlIn : List Char :=
  "<PolicySet\nPolicySetId=\"ps\" xmlns:xacml3=\"urn:x\"><xacml3:Target></xacml3:Target></PolicySet>".data

/-- Counterexample to claim C8: the third regex of `transformXacmlNamespace`
replaces `/<PolicySet /` — `<PolicySet` followed by a literal SPACE.  In
`c8nlIn` the root start tag has a newline before its first attribute, so
after the declaration and prefix stripping no `<PolicySet ` (with a space)
exists yet, the replacement never fires, and only the final whitespace
collapse turns the newline into a space.  The output therefore contains no
`xmlns` at all: the root `PolicySet` element does NOT carry
`xmlns="urn:oasis:names:tc:xacml:3.0:core:schema:wd-17"` as its default
namespace, refuting the claim's last conjunct at a well-formed input (the
first two conjuncts of the theorem record that the input really declares and
uses the `xacml3` prefix, so the transform was supposed to act). -/
theorem C8_cex_newline_before_first_attribute :
    listIncludes ("xmlns:xacml3=\"".data) c8nlIn = true ∧
    listIncludes ("xacml3:".data) c8nlIn = true ∧
    transformXacmlNamespace c8nlIn =
      ("<PolicySet PolicySetId=\"ps\" ><Target></Target></PolicySet>").data ∧
    listIncludes ("xmlns".data) (transformXacmlNamespace c8nlIn) = false :=
  ⟨rfl, rfl, rfl, rfl⟩

/-! ### Occurrence analysis for the prefix-stripping pass -/

/-- The word `xacml3`. -/
def xm : List Char := "xacml3".data

/-- The stripped pattern `xacml3:`. -/
def xn : List Char := "xacml3:".data

/-- The characters that can continue a partial `xacml3:` match (its tail). -/
def xnTail : List Char := "acml3:".data

/-- The pattern `needle` occurs in `s` at position `i`. -/
def matchesAt (needle s : List Char) (i : Nat) : Prop :=
  (s.drop i).take needle.length = needle

instance (needle s : List Char) (i : Nat) : Decidable (matchesAt needle s i) := by
  unfold matchesAt
  infer_instance

lemma matchesAt_zero {n s : List Char} : matchesAt n s 0 ↔ n <+: s := by
  rw [matchesAt, List.drop_zero, List.prefix_iff_eq_take]
  exact eq_comm

lemma matchesAt_cons {n s : List Char} {c : Char} {i : Nat} :
    matchesAt n (c :: s) (i + 1) ↔ matchesAt n s i := by
  rw [matchesAt, matchesAt, List.drop_succ_cons]

lemma matchesAt_lt {n s : List Char} {i : Nat} (h : matchesAt n s i)
    (hn : n ≠ []) : i < s.length := by
  by_contra hi
  push_neg at hi
  rw [matchesAt, List.drop_eq_nil_of_le hi] at h
  simp at h
  exact hn h

lemma matchesAt_drop {n s : List Char} {k i : Nat} :
    matchesAt n (s.drop k) i ↔ matchesAt n s (k + i) := by
  rw [matchesAt, matchesAt, List.drop_drop]

/-- The head of a proper nonempty suffix of `l` is an element of `l.drop 1`. -/
lemma suffix_head_mem {l v2 : List Char} {c : Char} (hs : (c :: v2) <:+ l)
    (hne : c :: v2 ≠ l) : c ∈ l.drop 1 := by
  obtain ⟨u, hu⟩ := hs
  cases u with
  | nil => simp only [List.nil_append] at hu; exact absurd hu hne
  | cons u0 u2 =>
    rw [← hu]
    simp

/-- The dangling-suffix family of the occurrence analysis: nonempty proper
suffixes of `xacml3:` or of `xacml3`. -/
def chainV (v : List Char) : Prop :=
  v ≠ [] ∧ ((v <:+ xn ∧ v ≠ xn) ∨ (v <:+ xm ∧ v ≠ xm))

lemma chainV_head_mem {v2 : List Char} {c : Char} (h : chainV (c :: v2)) :
    c ∈ xnTail := by
  rcases h.2 with ⟨hs, hne⟩ | ⟨hs, hne⟩
  · exact suffix_head_mem hs hne
  · have hm : c ∈ xm.drop 1 := suffix_head_mem hs hne
    have he : xnTail = xm.drop 1 ++ [':'] := by decide
    rw [he]
    exact List.mem_append_left _ hm

/-- Key property of the single-pass `xacml3:` removal: when every occurrence
of `xacml3` in `s` is completed by a colon and no occurrence of `xacml3:` is
followed by a character that can continue a partial match, the output
contains no `xacml3` at all, and any dangling-suffix prefix of the output is
already a prefix of the input. -/
lemma stripAllF_key :
    ∀ fuel s, s.length ≤ fuel →
      (∀ i, matchesAt xm s i → matchesAt xn s i) →
      (∀ i c, matchesAt xn s i → s[i + 7]? = some c → c ∉ xnTail) →
      (¬ xm <:+: stripAllF xn fuel s) ∧
      (∀ v, chainV v → v <+: stripAllF xn fuel s → v <+: s)
  | 0, s, hlen, _, _ => by
    have hs : s = [] := List.eq_nil_of_length_eq_zero (by omega)
    subst hs
    constructor
    · intro h
      rw [show stripAllF xn 0 ([] : List Char) = [] from rfl, List.infix_nil] at h
      exact absurd h (by decide)
    · intro v hv h
      rw [show stripAllF xn 0 ([] : List Char) = [] from rfl, List.prefix_nil] at h
      exact absurd h hv.1
  | fuel + 1, [], _, _, _ => by
    constructor
    · intro h
      rw [show stripAllF xn (fuel + 1) [] = [] from rfl, List.infix_nil] at h
      exact absurd h (by decide)
    · intro v hv h
      rw [show stripAllF xn (fuel + 1) [] = [] from rfl, List.prefix_nil] at h
      exact absurd h hv.1
  | fuel + 1, c :: rest, hlen, hA, hB => by
    by_cases hm : xn.isPrefixOf (c :: rest)
    · have hstep : stripAllF xn (fuel + 1) (c :: rest) =
          stripAllF xn fuel ((c :: rest).drop 7) := by
        show (if xn.isPrefixOf (c :: rest) then
          stripAllF xn fuel ((c :: rest).drop xn.length) else
          c :: stripAllF xn fuel rest) = _
        rw [if_pos hm]
        rfl
      have hlen' : ((c :: rest).drop 7).length ≤ fuel := by
        rw [List.length_drop]
        simp only [List.length_cons] at hlen ⊢
        omega
      have hA' : ∀ i, matchesAt xm ((c :: rest).drop 7) i →
          matchesAt xn ((c :: rest).drop 7) i := by
        intro i hi
        rw [matchesAt_drop] at hi ⊢
        exact hA (7 + i) hi
      have hB' : ∀ i d, matchesAt xn ((c :: rest).drop 7) i →
          ((c :: rest).drop 7)[i + 7]? = some d → d ∉ xnTail := by
        intro i d hi hg
        rw [matchesAt_drop] at hi
        rw [List.getElem?_drop] at hg
        have he : 7 + (i + 7) = (7 + i) + 7 := by omega
        rw [he] at hg
        exact hB (7 + i) d hi hg
      have IH := stripAllF_key fuel ((c :: rest).drop 7) hlen' hA' hB'
      rw [hstep]
      refine ⟨IH.1, fun v hv hp => ?_⟩
      exfalso
      have hv' := IH.2 v hv hp
      obtain ⟨vc, v2, rfl⟩ : ∃ vc v2, v = vc :: v2 := by
        cases v with
        | nil => exact absurd rfl hv.1
        | cons vc v2 => exact ⟨vc, v2, rfl⟩
      have hg : ((c :: rest).drop 7)[0]? = some vc := by
        obtain ⟨w, hw⟩ := hv'
        rw [← hw]
        simp
      rw [List.getElem?_drop] at hg
      have hm0 : matchesAt xn (c :: rest) 0 :=
        matchesAt_zero.mpr (isPrefixOf_eq_true_iff.mp hm)
      exact hB 0 vc hm0 hg (chainV_head_mem hv)
    · have hstep : stripAllF xn (fuel + 1) (c :: rest) =
          c :: stripAllF xn fuel rest := by
        show (if xn.isPrefixOf (c :: rest) then
          stripAllF xn fuel ((c :: rest).drop xn.length) else
          c :: stripAllF xn fuel rest) = _
        rw [if_neg hm]
      have hlen' : rest.length ≤ fuel := by
        simp only [List.length_cons] at hlen
        omega
      have hA' : ∀ i, matchesAt xm rest i → matchesAt xn rest i := by
        intro i hi
        rw [← matchesAt_cons (c := c)] at hi ⊢
        exact hA (i + 1) hi
      have hB' : ∀ i d, matchesAt xn rest i → rest[i + 7]? = some d →
          d ∉ xnTail := by
        intro i d hi hg
        rw [← matchesAt_cons (c := c)] at hi
        have hg' : (c :: rest)[(i + 1) + 7]? = some d := by
          have he : (i + 1) + 7 = (i + 7) + 1 := by omega
          rw [he, List.getElem?_cons_succ]
          exact hg
        exact hB (i + 1) d hi hg'
      have IH := stripAllF_key fuel rest hlen' hA' hB'
      rw [hstep]
      constructor
      · intro hocc
        rcases List.infix_cons_iff.mp hocc with hpre | hinf
        · have hxm : xm = 'x' :: "acml3".data := by decide
          rw [hxm] at hpre
          rw [List.cons_prefix_cons] at hpre
          obtain ⟨hc, htail⟩ := hpre
          have hch : chainV ("acml3".data) := by
            refine ⟨by decide, Or.inr ⟨?_, by decide⟩⟩
            decide
          have hr : ("acml3".data) <+: rest := IH.2 _ hch htail
          have hpre2 : xm <+: c :: rest := by
            rw [hxm, List.cons_prefix_cons]
            exact ⟨hc, hr⟩
          have hm0 : matchesAt xn (c :: rest) 0 :=
            hA 0 (matchesAt_zero.mpr hpre2)
          rw [matchesAt_zero] at hm0
          exact hm (isPrefixOf_eq_true_iff.mpr hm0)
        · exact IH.1 hinf
      · intro v hv hp
        rcases List.prefix_cons_iff.mp hp with rfl | ⟨t, rfl, ht⟩
        · exact absurd rfl hv.1
        · cases t with
          | nil => exact ⟨rest, rfl⟩
          | cons t0 t2 =>
            have hch : chainV (t0 :: t2) := by
              rcases hv.2 with ⟨hs, hne⟩ | ⟨hs, hne⟩
              · have hlt : (c :: t0 :: t2).length < xn.length :=
                  lt_of_le_of_ne hs.length_le
                    (fun he => hne (hs.eq_of_length he))
                refine ⟨by simp, Or.inl ⟨?_, ?_⟩⟩
                · exact (List.suffix_cons c (t0 :: t2)).trans hs
                · intro he
                  rw [he] at hlt
                  simp only [List.length_cons] at hlt
                  omega
              · have hlt : (c :: t0 :: t2).length < xm.length :=
                  lt_of_le_of_ne hs.length_le
                    (fun he => hne (hs.eq_of_length he))
                refine ⟨by simp, Or.inr ⟨?_, ?_⟩⟩
                · exact (List.suffix_cons c (t0 :: t2)).trans hs
                · intro he
                  rw [he] at hlt
                  simp only [List.length_cons] at hlt
                  omega
            have hr := IH.2 (t0 :: t2) hch ht
            rw [List.cons_prefix_cons]
            exact ⟨rfl, hr⟩

/-- Corollary of `stripAllF_key` with decidable, length-bounded hypotheses. -/
lemma stripAll_no_xm (s : List Char)
    (hA : ∀ i, i < s.length → matchesAt xm s i → matchesAt xn s i)
    (hB : ∀ i, i < s.length → matchesAt xn s i →
      ((s[i + 7]?).all (fun c => !(decide (c ∈ xnTail)))) = true) :
    ¬ xm <:+: stripAll xn s := by
  have hA' : ∀ i, matchesAt xm s i → matchesAt xn s i := fun i h =>
    hA i (matchesAt_lt h (by decide)) h
  have hB' : ∀ i c, matchesAt xn s i → s[i + 7]? = some c → c ∉ xnTail := by
    intro i c hmi hg
    have hb := hB i (matchesAt_lt hmi (by decide)) hmi
    rw [hg] at hb
    simpa using hb
  exact (stripAllF_key s.length s le_rfl hA' hB').1

/-- First-occurrence replacement preserves the absence of an unrelated
`target`, when `target` cannot occur in, end inside, or begin inside the
replacement text. -/
lemma replaceFirst_no_target (needle rep target : List Char)
    (h1 : ¬ target <:+: rep)
    (h2 : ∀ j, j < target.length → 0 < j → ¬ target.take j <:+ rep)
    (h3 : ∀ j, j < target.length → 0 < j → ¬ target.drop j <+: rep)
    (htlen : target.length ≤ rep.length) (hne : target ≠ []) :
    ∀ t, ¬ target <:+: t →
      (¬ target <:+: replaceFirst needle rep t) ∧
      (∀ v, v ≠ [] → v <:+ target → v ≠ target →
        v <+: replaceFirst needle rep t → v <+: t)
  | [], hnt => by
    constructor
    · intro h
      exact hnt (by simpa [replaceFirst] using h)
    · intro v hv _ _ hp
      rw [show replaceFirst needle rep [] = [] from rfl, List.prefix_nil] at hp
      exact absurd hp hv
  | c :: rest, hnt => by
    have hrt : ¬ target <:+: rest :=
      fun h => hnt (h.trans (List.suffix_cons c rest).isInfix)
    have IH := replaceFirst_no_target needle rep target h1 h2 h3 htlen hne rest hrt
    by_cases hm : needle.isPrefixOf (c :: rest)
    · have hstep : replaceFirst needle rep (c :: rest) =
          rep ++ (c :: rest).drop needle.length := by
        show (if needle.isPrefixOf (c :: rest) then
          rep ++ (c :: rest).drop needle.length else
          c :: replaceFirst needle rep rest) = _
        rw [if_pos hm]
      rw [hstep]
      constructor
      · refine not_infix_append h1 ?_ ?_
        · intro h
          exact hnt (h.trans (List.drop_suffix _ _).isInfix)
        · intro j hj hj0
          exact h2 j hj hj0
      · intro v hvne hvs hvnt hp
        exfalso
        rcases pre_append_split hp with hvr | ⟨hrv, _⟩
        · obtain ⟨u, hu⟩ := id hvs
          have hdv : target.drop u.length = v := by
            rw [← hu, List.drop_left]
          have hv0 : 0 < v.length := List.length_pos.mpr hvne
          have hj : u.length < target.length := by
            have hsum : u.length + v.length = target.length := by
              rw [← hu, List.length_append]
            omega
          have hj0 : 0 < u.length := by
            rcases Nat.eq_zero_or_pos u.length with h0 | h0
            · have hu0 : u = [] := List.eq_nil_of_length_eq_zero h0
              rw [hu0, List.nil_append] at hu
              exact absurd hu hvnt
            · exact h0
          exact h3 u.length hj hj0 (hdv ▸ hvr)
        · have hv1 : v.length < target.length := by
            have hle : v.length ≤ target.length := hvs.length_le
            cases Nat.eq_or_lt_of_le hle with
            | inl he => exact absurd (hvs.eq_of_length he) hvnt
            | inr hlt => exact hlt
          have := hrv.length_le
          omega
    · have hstep : replaceFirst needle rep (c :: rest) =
          c :: replaceFirst needle rep rest := by
        show (if needle.isPrefixOf (c :: rest) then
          rep ++ (c :: rest).drop needle.length else
          c :: replaceFirst needle rep rest) = _
        rw [if_neg hm]
      rw [hstep]
      constructor
      · intro hocc
        rcases List.infix_cons_iff.mp hocc with hpre | hinf
        · obtain ⟨t0, ttail, rfl⟩ : ∃ t0 ttail, target = t0 :: ttail := by
            cases target with
            | nil => exact absurd rfl hne
            | cons t0 ttail => exact ⟨t0, ttail, rfl⟩
          rw [List.cons_prefix_cons] at hpre
          obtain ⟨hc, htail⟩ := hpre
          cases ttail with
          | nil =>
            refine hnt (List.IsPrefix.isInfix ?_)
            rw [List.cons_prefix_cons]
            exact ⟨hc, nil_is_pre⟩
          | cons s0 s2 =>
            have hch := IH.2 (s0 :: s2) (by simp)
              (List.suffix_cons t0 (s0 :: s2)) ?hne2 htail
            case hne2 =>
              intro he
              have := congrArg List.length he
              simp at this
            refine hnt (List.IsPrefix.isInfix ?_)
            rw [List.cons_prefix_cons]
            exact ⟨hc, hch⟩
        · exact IH.1 hinf
      · intro v hvne hvs hvnt hp
        rcases List.prefix_cons_iff.mp hp with rfl | ⟨t, rfl, ht⟩
        · exact absurd rfl hvne
        · cases t with
          | nil => exact ⟨rest, rfl⟩
          | cons t0 t2 =>
            have hts : (t0 :: t2) <:+ target :=
              (List.suffix_cons c (t0 :: t2)).trans hvs
            have htne : (t0 :: t2) ≠ target := by
              intro he
              have h1l : (c :: t0 :: t2).length ≤ target.length := hvs.length_le
              have h2l := congrArg List.length he
              simp only [List.length_cons] at h1l h2l
              omega
            have hr := IH.2 (t0 :: t2) (by simp) hts htne ht
            rw [List.cons_prefix_cons]
            exact ⟨rfl, hr⟩

/-- If the pattern occurs, the replaced text contains the replacement. -/
lemma replaceFirst_contains_rep (needle rep : List Char) (hne : needle ≠ []) :
    ∀ t, needle <:+: t → ∃ x y, replaceFirst needle rep t = x ++ rep ++ y
  | [], h => absurd (List.infix_nil.mp h) hne
  | c :: rest, h => by
    by_cases hm : needle.isPrefixOf (c :: rest)
    · refine ⟨[], (c :: rest).drop needle.length, ?_⟩
      show (if needle.isPrefixOf (c :: rest) then
        rep ++ (c :: rest).drop needle.length else
        c :: replaceFirst needle rep rest) = _
      rw [if_pos hm]
      rfl
    · rcases List.infix_cons_iff.mp h with hpre | hinf
      · exact absurd (isPrefixOf_eq_true_iff.mpr hpre) hm
      · obtain ⟨x, y, hxy⟩ := replaceFirst_contains_rep needle rep hne rest hinf
        refine ⟨c :: x, y, ?_⟩
        show (if needle.isPrefixOf (c :: rest) then
          rep ++ (c :: rest).drop needle.length else
          c :: replaceFirst needle rep rest) = _
        rw [if_neg hm, hxy]
        rfl

/-! ### Whitespace collapsing -/

lemma collapseWsF_mono :
    ∀ f1 f2 l, l.length ≤ f1 → l.length ≤ f2 → collapseWsF f1 l = collapseWsF f2 l
  | 0, f2, l, h1, _ => by
    have hl : l = [] := List.eq_nil_of_length_eq_zero (by omega)
    subst hl
    cases f2 <;> rfl
  | f1 + 1, 0, l, _, h2 => by
    have hl : l = [] := List.eq_nil_of_length_eq_zero (by omega)
    subst hl
    rfl
  | f1 + 1, f2 + 1, [], _, _ => rfl
  | f1 + 1, f2 + 1, c :: rest, h1, h2 => by
    show (if jsWs c then ' ' :: collapseWsF f1 (rest.dropWhile jsWs)
          else c :: collapseWsF f1 rest) =
        (if jsWs c then ' ' :: collapseWsF f2 (rest.dropWhile jsWs)
          else c :: collapseWsF f2 rest)
    have hd : (rest.dropWhile jsWs).length ≤ rest.length :=
      (List.dropWhile_suffix jsWs).length_le
    simp only [List.length_cons] at h1 h2
    by_cases hc : jsWs c
    · rw [if_pos hc, if_pos hc,
        collapseWsF_mono f1 f2 (rest.dropWhile jsWs) (by omega) (by omega)]
    · rw [if_neg hc, if_neg hc,
        collapseWsF_mono f1 f2 rest (by omega) (by omega)]

lemma collapseWs_cons_ws {c : Char} {rest : List Char} (h : jsWs c = true) :
    collapseWs (c :: rest) = ' ' :: collapseWs (rest.dropWhile jsWs) := by
  show collapseWsF (rest.length + 1) (c :: rest) = _
  show (if jsWs c then ' ' :: collapseWsF rest.length (rest.dropWhile jsWs)
        else c :: collapseWsF rest.length rest) = _
  rw [if_pos h, collapseWsF_mono rest.length (rest.dropWhile jsWs).length
    (rest.dropWhile jsWs) (List.dropWhile_suffix jsWs).length_le le_rfl]
  rfl

lemma collapseWs_cons_nonws {c : Char} {rest : List Char} (h : jsWs c = false) :
    collapseWs (c :: rest) = c :: collapseWs rest := by
  show collapseWsF (rest.length + 1) (c :: rest) = _
  show (if jsWs c then ' ' :: collapseWsF rest.length (rest.dropWhile jsWs)
        else c :: collapseWsF rest.length rest) = _
  rw [h]
  rfl

/-- Whitespace collapsing preserves the absence of a whitespace-free target
(no occurrence can be created by joining runs into single spaces). -/
lemma collapseWs_key (target : List Char) (hne : target ≠ [])
    (hws : ∀ c ∈ target, jsWs c = false) :
    ∀ fuel t, t.length ≤ fuel →
      (¬ target <:+: t → ¬ target <:+: collapseWs t) ∧
      (∀ v, v ≠ [] → v <:+ target → v <+: collapseWs t → v <+: t)
  | 0, t, hlen => by
    have hl : t = [] := List.eq_nil_of_length_eq_zero (by omega)
    subst hl
    constructor
    · intro hnt hocc
      exact hnt hocc
    · intro v hv _ hp
      rw [show collapseWs [] = [] from rfl, List.prefix_nil] at hp
      exact absurd hp hv
  | fuel + 1, [], _ => by
    constructor
    · intro hnt hocc
      exact hnt hocc
    · intro v hv _ hp
      rw [show collapseWs [] = [] from rfl, List.prefix_nil] at hp
      exact absurd hp hv
  | fuel + 1, c :: rest, hlen => by
    have hlr : rest.length ≤ fuel := by
      simp only [List.length_cons] at hlen
      omega
    have hld : (rest.dropWhile jsWs).length ≤ fuel :=
      le_trans (List.dropWhile_suffix jsWs).length_le hlr
    by_cases hc : jsWs c
    · rw [collapseWs_cons_ws hc]
      constructor
      · intro hnt hocc
        rcases List.infix_cons_iff.mp hocc with hpre | hinf
        · obtain ⟨t0, ttail, rfl⟩ : ∃ t0 ttail, target = t0 :: ttail := by
            cases target with
            | nil => exact absurd rfl hne
            | cons t0 ttail => exact ⟨t0, ttail, rfl⟩
          rw [List.cons_prefix_cons] at hpre
          have h0 := hws t0 (List.mem_cons_self t0 ttail)
          rw [hpre.1] at h0
          exact absurd h0 (by decide)
        · have hnt' : ¬ target <:+: rest.dropWhile jsWs := fun h =>
            hnt ((h.trans (List.dropWhile_suffix jsWs).isInfix).trans
              (List.suffix_cons c rest).isInfix)
          exact (collapseWs_key target hne hws fuel (rest.dropWhile jsWs)
            hld).1 hnt' hinf
      · intro v hv hvs hp
        exfalso
        obtain ⟨v0, v2, rfl⟩ : ∃ v0 v2, v = v0 :: v2 := by
          cases v with
          | nil => exact absurd rfl hv
          | cons v0 v2 => exact ⟨v0, v2, rfl⟩
        rw [List.cons_prefix_cons] at hp
        have h0 := hws v0 (hvs.sublist.subset (List.mem_cons_self v0 v2))
        rw [hp.1] at h0
        exact absurd h0 (by decide)
    · have hcf : jsWs c = false := by
        cases hcc : jsWs c
        · rfl
        · exact absurd hcc hc
      rw [collapseWs_cons_nonws hcf]
      constructor
      · intro hnt hocc
        have hnr : ¬ target <:+: rest := fun h =>
          hnt (h.trans (List.suffix_cons c rest).isInfix)
        rcases List.infix_cons_iff.mp hocc with hpre | hinf
        · obtain ⟨t0, ttail, rfl⟩ : ∃ t0 ttail, target = t0 :: ttail := by
            cases target with
            | nil => exact absurd rfl hne
            | cons t0 ttail => exact ⟨t0, ttail, rfl⟩
          rw [List.cons_prefix_cons] at hpre
          obtain ⟨hc0, htail⟩ := hpre
          cases ttail with
          | nil =>
            refine hnt (List.IsPrefix.isInfix ?_)
            rw [List.cons_prefix_cons]
            exact ⟨hc0, nil_is_pre⟩
          | cons s0 s2 =>
            have hr := (collapseWs_key (t0 :: s0 :: s2) hne hws fuel rest
              hlr).2 (s0 :: s2) (by simp)
              (List.suffix_cons t0 (s0 :: s2)) htail
            refine hnt (List.IsPrefix.isInfix ?_)
            rw [List.cons_prefix_cons]
            exact ⟨hc0, hr⟩
        · exact (collapseWs_key target hne hws fuel rest hlr).1 hnr hinf
      · intro v hv hvs hp
        rcases List.prefix_cons_iff.mp hp with rfl | ⟨t, rfl, ht⟩
        · exact absurd rfl hv
        · cases t with
          | nil => exact ⟨rest, rfl⟩
          | cons t0 t2 =>
            have hts : (t0 :: t2) <:+ target :=
              (List.suffix_cons c (t0 :: t2)).trans hvs
            have hr := (collapseWs_key target hne hws fuel rest hlr).2
              (t0 :: t2) (by simp) hts ht
            rw [List.cons_prefix_cons]
            exact ⟨rfl, hr⟩

/-- Collapsing distributes over a whitespace-free front segment. -/
lemma collapseWs_nows_append :
    ∀ a b, (∀ c ∈ a, jsWs c = false) →
      collapseWs (a ++ b) = a ++ collapseWs b
  | [], b, _ => by simp
  | c :: a2, b, h => by
    have hc : jsWs c = false := h c (List.mem_cons_self c a2)
    rw [List.cons_append, collapseWs_cons_nonws hc,
      collapseWs_nows_append a2 b (fun d hd => h d (List.mem_cons_of_mem c hd))]
    rfl

/-- Collapsing splits at a non-whitespace boundary character. -/
lemma collapseWs_append_nonws_head (c : Char) (hc : jsWs c = false) :
    ∀ fuel a b2, a.length ≤ fuel →
      collapseWs (a ++ c :: b2) = collapseWs a ++ collapseWs (c :: b2)
  | 0, a, b2, hlen => by
    have hl : a = [] := List.eq_nil_of_length_eq_zero (by omega)
    subst hl
    simp
    rfl
  | fuel + 1, [], b2, _ => by
    simp
    rfl
  | fuel + 1, d :: a2, b2, hlen => by
    have hla : a2.length ≤ fuel := by
      simp only [List.length_cons] at hlen
      omega
    by_cases hd : jsWs d
    · rw [List.cons_append, collapseWs_cons_ws hd, collapseWs_cons_ws hd]
      rw [List.dropWhile_append]
      by_cases he : (a2.dropWhile jsWs).isEmpty
      · rw [if_pos he]
        have ha2 : a2.dropWhile jsWs = [] := by
          rwa [List.isEmpty_iff] at he
        rw [ha2]
        rw [List.dropWhile_cons_of_neg (by rw [hc]; exact Bool.false_ne_true)]
        rfl
      · rw [if_neg he]
        have hdd : (a2.dropWhile jsWs).length ≤ fuel :=
          le_trans (List.dropWhile_suffix jsWs).length_le hla
        rw [collapseWs_append_nonws_head c hc fuel (a2.dropWhile jsWs) b2 hdd]
        rfl
    · have hdf : jsWs d = false := by
        cases hdd : jsWs d
        · rfl
        · exact absurd hdd hd
      rw [List.cons_append, collapseWs_cons_nonws hdf, collapseWs_cons_nonws hdf,
        collapseWs_append_nonws_head c hc fuel a2 b2 hla]
      rfl

/-! ### Assembly of the amended claim C8 -/

/-- The installed `PolicySet` start tag with the canonical default
namespace (the claim's conjunct three, as a substring of the output). -/
def psTarget : List Char :=
  "<PolicySet xmlns=\"urn:oasis:names:tc:xacml:3.0:core:schema:wd-17\"".data

def psU1 : List Char := "<PolicySet".data

def psU2 : List Char :=
  "xmlns=\"urn:oasis:names:tc:xacml:3.0:core:schema:wd-17\"".data

/-- Collapsing whitespace around an inserted `policySetIns` keeps the
`psTarget` text intact. -/
lemma collapseWs_policySetIns (x y : List Char) :
    collapseWs (x ++ policySetIns ++ y) =
      collapseWs x ++ (psTarget ++ ' ' :: collapseWs (y.dropWhile jsWs)) := by
  have e1 : x ++ policySetIns ++ y =
      x ++ '<' :: (("PolicySet xmlns=\"urn:oasis:names:tc:xacml:3.0:core:schema:wd-17\" ".data) ++ y) := by
    rw [List.append_assoc]
    rfl
  rw [e1, collapseWs_append_nonws_head '<' (by decide) x.length x _ le_rfl]
  congr 1
  have e2 : '<' :: (("PolicySet xmlns=\"urn:oasis:names:tc:xacml:3.0:core:schema:wd-17\" ".data) ++ y) =
      psU1 ++ (' ' :: (psU2 ++ (' ' :: y))) := by
    rfl
  rw [e2, collapseWs_nows_append psU1 _ (by decide),
    collapseWs_cons_ws (by decide)]
  have e3 : psU2 ++ (' ' :: y) =
      'x' :: (("mlns=\"urn:oasis:names:tc:xacml:3.0:core:schema:wd-17\"".data) ++ (' ' :: y)) := by
    rfl
  rw [e3, List.dropWhile_cons_of_neg (by decide), ← e3,
    collapseWs_nows_append psU2 _ (by decide),
    collapseWs_cons_ws (by decide)]
  have e4 : psTarget = psU1 ++ ' ' :: psU2 := by decide
  rw [e4]
  simp

/-- Claim C8 (amended): for every input in which, after stripping the
`xmlns:xacml3` declarations, every occurrence of the word `xacml3` is
immediately followed by `:` and no occurrence of `xacml3:` is immediately
followed by one of the characters `a c m l 3 :` (true of any real authoring
document, where `xacml3` appears only as a whole prefix token followed by an
element name), and whose prefix-stripped text contains `<PolicySet ` with a
literal space — the exact pattern of the `/<PolicySet /` regex, which the
counterexample shows is NOT guaranteed even for well-formed documents (a
newline before the first attribute defeats it) — the output of
`transformXacmlNamespace` contains no `xacml3` at all — stronger than the
claim's "no `xmlns:xacml3` declaration and no `xacml3:` prefix on element
names", both of which follow — and its `PolicySet` start tag carries the
canonical XACML 3.0 core-schema default namespace.  On arbitrary raw text the
single-pass removals can splice a new occurrence together (see
`stripAll_splices_new_occurrence_demo`), which is what the token-hygiene
hypotheses exclude; every namespace-well-formed authoring document satisfies
them. -/
theorem C8_amended_namespace_transform (s : List Char)
    (hA : ∀ i, i < (stripDecl s).length → matchesAt xm (stripDecl s) i →
      matchesAt xn (stripDecl s) i)
    (hB : ∀ i, i < (stripDecl s).length → matchesAt xn (stripDecl s) i →
      (((stripDecl s)[i + 7]?).all (fun c => !(decide (c ∈ xnTail)))) = true)
    (hP : ("<PolicySet ".data) <:+: stripAll xn (stripDecl s)) :
    (¬ ("xacml3".data) <:+: transformXacmlNamespace s) ∧
    (¬ ("xacml3:".data) <:+: transformXacmlNamespace s) ∧
    (¬ ("xmlns:xacml3=\"".data) <:+: transformXacmlNamespace s) ∧
    (psTarget <:+: transformXacmlNamespace s) := by
  have h2 : ¬ xm <:+: stripAll xn (stripDecl s) := stripAll_no_xm (stripDecl s) hA hB
  have h3 : ¬ xm <:+: replaceFirst ("<PolicySet ".data) policySetIns
      (stripAll xn (stripDecl s)) :=
    (replaceFirst_no_target ("<PolicySet ".data) policySetIns xm
      (by decide)
      (by decide)
      (by decide)
      (by decide) (by decide) (stripAll xn (stripDecl s)) h2).1
  have hout : ¬ xm <:+: transformXacmlNamespace s := by
    show ¬ xm <:+: collapseWs (replaceFirst ("<PolicySet ".data) policySetIns
      (stripAll xn (stripDecl s)))
    exact (collapseWs_key xm (by decide) (by decide) _ _ le_rfl).1 h3
  refine ⟨hout, ?_, ?_, ?_⟩
  · intro h
    refine hout (List.IsInfix.trans ?_ h)
    exact ⟨[], [':'], rfl⟩
  · intro h
    refine hout (List.IsInfix.trans ?_ h)
    exact ⟨"xmlns:".data, "=\"".data, rfl⟩
  · obtain ⟨x, y, hxy⟩ := replaceFirst_contains_rep ("<PolicySet ".data)
      policySetIns (by decide) (stripAll xn (stripDecl s)) hP
    show psTarget <:+: collapseWs (replaceFirst ("<PolicySet ".data) policySetIns
      (stripAll xn (stripDecl s)))
    rw [hxy, collapseWs_policySetIns x y]
    exact ⟨collapseWs x, ' ' :: collapseWs (y.dropWhile jsWs), by simp⟩

/-- A representative authoring document for the amended claim C8. -/
def c8goodIn : List Char :=
  "<PolicySet xmlns:xacml3=\"urn:x\" PolicySetId=\"ps\"><xacml3:Target></xacml3:Target></PolicySet>".data

theorem C8_amended_namespace_transform_witness :
    (¬ ("xacml3".data) <:+: transformXacmlNamespace c8goodIn) ∧
    psTarget <:+: transformXacmlNamespace c8goodIn :=
  ⟨(C8_amended_namespace_transform c8goodIn (by decide) (by decide)
      (by decide)).1,
   (C8_amended_namespace_transform c8goodIn (by decide) (by decide)
      (by decide)).2.2.2⟩

end Xacml
